import Mathlib

/-!
Predicate construction, query composition and cursor pagination of go-dbstore.

A shallow embedding of the packages `filter` (operators.go, filter.go), `dbstore`
(utils.go), `obun` (repository.go) and `xbun` (repository.go), followed by theorems
about them.

Conventions of the embedding.

* A Go `string` is a Lean `String`: a valid UTF-8 text seen as its sequence of
  code points.
* A Go `any` is `Option Value`; `none` is the nil interface.
* A Go pointer that may be nil (`*sqlWhere`) is an `Option`.
* A bun statement builder is the state the builder calls leave in it: the list
  of where clauses (each with its separator, template and positional
  arguments), the list of order expressions and the limit, which bun keeps as an
  `int32`.  Builder methods mutate the statement in place; here they return the
  new statement.
* A Go `int` is a Lean `Int`; the one place where its width matters is the
  conversion `int32(n)` inside bun.
-/

namespace DbStore

/-! ## Go values -/

/-- A Go value of a basic type, as it can be bound to a statement parameter. -/
inductive Scalar where
  | int (i : Int)
  | str (s : String)
  deriving DecidableEq, Repr

/-- A non-nil dynamic Go value: a basic value or a slice of basic values. -/
inductive Value where
  | scalar (s : Scalar)
  | slice (xs : List Scalar)
  deriving DecidableEq, Repr

/-- The Go interface type `any`; `none` is the nil interface, the one value for
which `value == nil` holds. -/
abbrev GoAny := Option Value

/-- The Go conversion `int32(n)` of an `int`: the low 32 bits of `n`, read as a
signed number. -/
def int32 (n : Int) : Int :=
  (n + 2147483648) % 4294967296 - 2147483648

/-! ## The parts of Go's standard library that `filter` calls -/

namespace unicode

/-- Go's `unicode.IsSpace`: the Latin-1 spaces `\t \n \v \f \r`, space, U+0085 and
U+00A0, and beyond Latin-1 the code points with the White_Space property. -/
def IsSpace (r : Char) : Bool :=
  let n := r.toNat
  (0x09 ≤ n && n ≤ 0x0D) || n == 0x20 || n == 0x85 || n == 0xA0 || n == 0x1680 ||
    (0x2000 ≤ n && n ≤ 0x200A) || n == 0x2028 || n == 0x2029 || n == 0x202F ||
    n == 0x205F || n == 0x3000

/-- Go's `unicode.ToLower`.  An ASCII rune is lower-cased by the `A`..`Z` rule; any
other rune is looked up in the Unicode case tables, which are data of the Go
distribution and are taken here as the parameter `caseTable`. -/
def ToLower (caseTable : Char → Char) (r : Char) : Char :=
  if r.toNat ≤ 0x7F then
    if 0x41 ≤ r.toNat ∧ r.toNat ≤ 0x5A then Char.ofNat (r.toNat + 0x20) else r
  else caseTable r

/-- A case table that lower-cases U+0130 to `i` and U+212A (the Kelvin sign) to
`k`, the two non-ASCII code points whose lower case is an ASCII letter, and
leaves every other rune as it is. -/
def sampleCaseTable (r : Char) : Char :=
  if r.toNat = 0x130 then Char.ofNat 0x69
  else if r.toNat = 0x212A then Char.ofNat 0x6B
  else r

end unicode

namespace strings

/-- Go's `strings.TrimSpace`: the string without its leading and trailing white
space, as `unicode.IsSpace` defines it. -/
def TrimSpace (s : String) : String :=
  String.mk ((s.data.dropWhile unicode.IsSpace).reverse.dropWhile unicode.IsSpace).reverse

/-- Go's `strings.ToLower`: every rune mapped by `unicode.ToLower`. -/
def ToLower (caseTable : Char → Char) (s : String) : String :=
  String.mk (s.data.map (unicode.ToLower caseTable))

/-- Equality of two strings ignoring the case of the letters `A`..`Z`. -/
def EqualIgnoringCase (s t : String) : Bool :=
  s.data.map Char.toLower == t.data.map Char.toLower

end strings

/-! ## The bun statement builders, as far as `filter` and `obun` drive them -/

namespace bun

/-- One positional argument of a clause: `bun.Ident(name)`, rendered as a quoted
identifier, or a Go value bound as a parameter. -/
inductive Arg where
  | ident (name : String)
  | value (v : GoAny)
  deriving DecidableEq, Repr

/-- One where clause of a statement: the separator that joins it to the clauses
before it (`" AND "` for `Where`, `" OR "` for `WhereOr`), its template and its
positional arguments. -/
structure QueryWithSep where
  sep : String
  query : String
  args : List Arg
  deriving DecidableEq, Repr

/-- A `*bun.SelectQuery`: where clauses and order expressions in the order they
were added, and the limit as bun keeps it, an `int32` (0 on a new statement). -/
structure SelectQuery where
  whereClauses : List QueryWithSep
  order : List String
  limit : Int
  deriving DecidableEq, Repr

/-- A `*bun.UpdateQuery`, reduced to its where clauses. -/
structure UpdateQuery where
  whereClauses : List QueryWithSep
  deriving DecidableEq, Repr

/-- A `*bun.DeleteQuery`, reduced to its where clauses. -/
structure DeleteQuery where
  whereClauses : List QueryWithSep
  deriving DecidableEq, Repr

/-- The statement `db.NewSelect().Model(m)` starts from. -/
def NewSelect : SelectQuery := ⟨[], [], 0⟩

/-- The method `(*SelectQuery).Where(query, args...)`: appends an AND-joined clause. -/
def SelectQuery.Where (q : SelectQuery) (query : String) (args : List Arg) : SelectQuery :=
  { q with whereClauses := q.whereClauses ++ [⟨" AND ", query, args⟩] }

/-- The method `(*SelectQuery).WhereOr(query, args...)`: appends an OR-joined clause. -/
def SelectQuery.WhereOr (q : SelectQuery) (query : String) (args : List Arg) : SelectQuery :=
  { q with whereClauses := q.whereClauses ++ [⟨" OR ", query, args⟩] }

/-- The method `(*SelectQuery).OrderExpr(query)`: appends an order expression. -/
def SelectQuery.OrderExpr (q : SelectQuery) (query : String) : SelectQuery :=
  { q with order := q.order ++ [query] }

/-- The method `(*SelectQuery).Limit(n)`: keeps `int32(n)` as the limit. -/
def SelectQuery.Limit (q : SelectQuery) (n : Int) : SelectQuery :=
  { q with limit := int32 n }

/-- The LIMIT clause bun writes for the statement: the limit when it is positive,
no clause otherwise. -/
def SelectQuery.limitClause (q : SelectQuery) : Option Int :=
  if 0 < q.limit then some q.limit else none

/-- Whether two statements are written as the same SQL: the same where clauses,
the same order expressions and the same LIMIT clause. -/
def SelectQuery.sameSQL (a b : SelectQuery) : Bool :=
  a.whereClauses == b.whereClauses && a.order == b.order && a.limitClause == b.limitClause

/-- The method `(*UpdateQuery).Where(query, args...)`. -/
def UpdateQuery.Where (q : UpdateQuery) (query : String) (args : List Arg) : UpdateQuery :=
  { q with whereClauses := q.whereClauses ++ [⟨" AND ", query, args⟩] }

/-- The method `(*UpdateQuery).WhereOr(query, args...)`. -/
def UpdateQuery.WhereOr (q : UpdateQuery) (query : String) (args : List Arg) : UpdateQuery :=
  { q with whereClauses := q.whereClauses ++ [⟨" OR ", query, args⟩] }

/-- The method `(*DeleteQuery).Where(query, args...)`. -/
def DeleteQuery.Where (q : DeleteQuery) (query : String) (args : List Arg) : DeleteQuery :=
  { q with whereClauses := q.whereClauses ++ [⟨" AND ", query, args⟩] }

/-- The method `(*DeleteQuery).WhereOr(query, args...)`. -/
def DeleteQuery.WhereOr (q : DeleteQuery) (query : String) (args : List Arg) : DeleteQuery :=
  { q with whereClauses := q.whereClauses ++ [⟨" OR ", query, args⟩] }

end bun

/-! ## Package filter: operators.go -/

namespace filter

/-- The struct `sqlWhere`. -/
structure sqlWhere where
  stmt : String
  columnName : String
  columnValue : GoAny
  sql_IsNullQueryType : Bool
  deriving DecidableEq, Repr

/-- The function `newSqlWhereStmt`: nil when `skipStatement`, else a predicate whose
`sql_IsNullQueryType` keeps its zero value. -/
def newSqlWhereStmt (skipStatement : Bool) (stmt : String) (columnName : String)
    (columnValue : GoAny) : Option sqlWhere :=
  if skipStatement then none
  else some { stmt := stmt, columnName := columnName, columnValue := columnValue,
              sql_IsNullQueryType := false }

/-- The function `empty`. -/
def empty (s : String) : Bool :=
  strings.TrimSpace s == ""

/-- The method `isANullQueryType`. -/
def sqlWhere.isANullQueryType (n : sqlWhere) : Bool :=
  n.sql_IsNullQueryType

def Equal (columnName : String) (value : GoAny) : Option sqlWhere :=
  newSqlWhereStmt (value == none) "? = ?" columnName value

def NotEqual (columnName : String) (value : GoAny) : Option sqlWhere :=
  newSqlWhereStmt (value == none) "? != ?" columnName value

def LessThan (columnName : String) (value : GoAny) : Option sqlWhere :=
  newSqlWhereStmt (value == none) "? < ?" columnName value

def LessThanOrEqual (columnName : String) (value : GoAny) : Option sqlWhere :=
  newSqlWhereStmt (value == none) "? <= ?" columnName value

def GreaterThan (columnName : String) (value : GoAny) : Option sqlWhere :=
  newSqlWhereStmt (value == none) "? > ?" columnName value

def GreaterThanOrEqual (columnName : String) (value : GoAny) : Option sqlWhere :=
  newSqlWhereStmt (value == none) "? >= ?" columnName value

/-- The string argument `s` boxed into the `any` parameter of `newSqlWhereStmt`. -/
def boxString (s : String) : GoAny := some (Value.scalar (Scalar.str s))

def Contains (columnName : String) (value : String) : Option sqlWhere :=
  newSqlWhereStmt (empty value) "lower(?) LIKE ?" columnName (boxString ("%" ++ value ++ "%"))

def NotContains (columnName : String) (value : String) : Option sqlWhere :=
  newSqlWhereStmt (empty value) "lower(?) NOT LIKE ?" columnName (boxString ("%" ++ value ++ "%"))

def StartsWith (columnName : String) (value : String) : Option sqlWhere :=
  newSqlWhereStmt (empty value) "lower(?) LIKE ?" columnName (boxString (value ++ "%"))

def NotStartsWith (columnName : String) (value : String) : Option sqlWhere :=
  newSqlWhereStmt (empty value) "lower(?) NOT LIKE ?" columnName (boxString (value ++ "%"))

def EndsWith (columnName : String) (value : String) : Option sqlWhere :=
  newSqlWhereStmt (empty value) "lower(?) LIKE ?" columnName (boxString ("%" ++ value))

def NotEndsWith (columnName : String) (value : String) : Option sqlWhere :=
  newSqlWhereStmt (empty value) "lower(?) NOT LIKE ?" columnName (boxString ("%" ++ value))

/-- The generic `In[T]`; the slice, nil or not, is boxed whole into `any`. -/
def In (columnName : String) (value : List Scalar) : Option sqlWhere :=
  newSqlWhereStmt (value.length == 0) "? IN (?)" columnName (some (Value.slice value))

def NotIn (columnName : String) (value : List Scalar) : Option sqlWhere :=
  newSqlWhereStmt (value.length == 0) "? NOT IN (?)" columnName (some (Value.slice value))

/-- The function `IsNull`: the flag is set on the predicate `newSqlWhereStmt` returned. -/
def IsNull (columnName : String) : Option sqlWhere :=
  (newSqlWhereStmt false "? IS NULL" columnName none).map
    fun q => { q with sql_IsNullQueryType := true }

def IsNotNull (columnName : String) : Option sqlWhere :=
  (newSqlWhereStmt false "? IS NOT NULL" columnName none).map
    fun q => { q with sql_IsNullQueryType := true }

/-! ## Package filter: filter.go -/

/-- The function `Limit`: the limit goes to the builder as it is given. -/
def Limit (q : bun.SelectQuery) (limit : Int) : bun.SelectQuery :=
  q.Limit limit

/-- The function `OrderBy`.  `Except.error` is the panic of the `default` arm, with
its message. -/
def OrderBy (caseTable : Char → Char) (q : bun.SelectQuery) (column direction : String) :
    Except String bun.SelectQuery :=
  if strings.TrimSpace direction == "" then Except.ok q
  else
    let value := strings.ToLower caseTable (strings.TrimSpace direction)
    if value == "asc" then Except.ok (q.OrderExpr (column ++ " asc"))
    else if value == "desc" then Except.ok (q.OrderExpr (column ++ " desc"))
    else Except.error "invalid order direction: should be \x27asc\x27 or \x27desc\x27"

/-- The function `OrderByAsc`. -/
def OrderByAsc (caseTable : Char → Char) (q : bun.SelectQuery) (column : String) :
    Except String bun.SelectQuery :=
  OrderBy caseTable q column "asc"

/-- The function `OrderByDesc`. -/
def OrderByDesc (caseTable : Char → Char) (q : bun.SelectQuery) (column : String) :
    Except String bun.SelectQuery :=
  OrderBy caseTable q column "desc"

/-- The three statement kinds the type parameter of `Where` and `OrWhere` ranges
over (`*bun.SelectQuery | *bun.UpdateQuery | *bun.DeleteQuery`). -/
inductive Stmt where
  | select (q : bun.SelectQuery)
  | update (q : bun.UpdateQuery)
  | delete (q : bun.DeleteQuery)
  deriving DecidableEq, Repr

/-- The where clauses of a statement of any kind. -/
def Stmt.whereClauses : Stmt → List bun.QueryWithSep
  | .select q => q.whereClauses
  | .update q => q.whereClauses
  | .delete q => q.whereClauses

/-- The function `Where`.  The two type switches are kept as the source has them,
one under `!isNullQuery` and one under `isNullQuery`; their `default` arms, which
panic, have no counterpart because the type parameter admits the three kinds only. -/
def Where (bunQ : Stmt) (opt : Option sqlWhere) : Stmt :=
  match opt with
  | none => bunQ
  | some opt =>
    let sqlQuery := opt.stmt
    let column := bun.Arg.ident opt.columnName
    let columnValue := bun.Arg.value opt.columnValue
    let isNullQuery := opt.isANullQueryType
    let bunQ :=
      if !isNullQuery then
        match bunQ with
        | .select q => Stmt.select (q.Where sqlQuery [column, columnValue])
        | .update q => Stmt.update (q.Where sqlQuery [column, columnValue])
        | .delete q => Stmt.delete (q.Where sqlQuery [column, columnValue])
      else bunQ
    if isNullQuery then
      match bunQ with
      | .select q => Stmt.select (q.Where sqlQuery [column])
      | .update q => Stmt.update (q.Where sqlQuery [column])
      | .delete q => Stmt.delete (q.Where sqlQuery [column])
    else bunQ

/-- The function `OrWhere`, with the same shape as `Where`. -/
def OrWhere (bunQ : Stmt) (opt : Option sqlWhere) : Stmt :=
  match opt with
  | none => bunQ
  | some opt =>
    let sqlQuery := opt.stmt
    let column := bun.Arg.ident opt.columnName
    let columnValue := bun.Arg.value opt.columnValue
    let isNullQuery := opt.isANullQueryType
    let bunQ :=
      if !isNullQuery then
        match bunQ with
        | .select q => Stmt.select (q.WhereOr sqlQuery [column, columnValue])
        | .update q => Stmt.update (q.WhereOr sqlQuery [column, columnValue])
        | .delete q => Stmt.delete (q.WhereOr sqlQuery [column, columnValue])
      else bunQ
    if isNullQuery then
      match bunQ with
      | .select q => Stmt.select (q.WhereOr sqlQuery [column])
      | .update q => Stmt.update (q.WhereOr sqlQuery [column])
      | .delete q => Stmt.delete (q.WhereOr sqlQuery [column])
    else bunQ

/-- The statement `s` with its where clauses replaced by `ws` and everything else
(kind, order expressions, limit) kept. -/
def Stmt.withWhere (s : Stmt) (ws : List bun.QueryWithSep) : Stmt :=
  match s with
  | .select q => Stmt.select { q with whereClauses := ws }
  | .update q => Stmt.update { q with whereClauses := ws }
  | .delete q => Stmt.delete { q with whereClauses := ws }

/-- The positional operands a predicate is applied with: the column identifier
alone for a null test, the identifier and the bound value otherwise. -/
def sqlWhere.operands (p : sqlWhere) : List bun.Arg :=
  if p.sql_IsNullQueryType then [bun.Arg.ident p.columnName]
  else [bun.Arg.ident p.columnName, bun.Arg.value p.columnValue]

/-- One call of the composer on a statement: `Where(stmt, p)` or `OrWhere(stmt, p)`. -/
inductive Call where
  | andWhere (p : Option sqlWhere)
  | orWhere (p : Option sqlWhere)
  deriving DecidableEq, Repr

/-- Runs one call on a statement. -/
def Call.run (bunQ : Stmt) : Call → Stmt
  | .andWhere p => Where bunQ p
  | .orWhere p => OrWhere bunQ p

/-- Runs a sequence of calls on a statement, first call first. -/
def runCalls (bunQ : Stmt) (calls : List Call) : Stmt :=
  calls.foldl Call.run bunQ

/-- The clause a call is expected to add: none for a nil predicate, else the
predicate's template with its operands, joined by AND for `Where` and by OR for
`OrWhere`. -/
def Call.clause : Call → Option bun.QueryWithSep
  | .andWhere none => none
  | .orWhere none => none
  | .andWhere (some p) => some ⟨" AND ", p.stmt, p.operands⟩
  | .orWhere (some p) => some ⟨" OR ", p.stmt, p.operands⟩

/-- The select criterion a caller writes around one composer call, as the
repository tests do: `func(q) { filter.Where(q, p); return q }`, or the same with
`OrWhere`. -/
def Call.criterion (c : Call) (q : bun.SelectQuery) : bun.SelectQuery :=
  match c.run (Stmt.select q) with
  | .select q2 => q2
  | _ => q

end filter

/-! ## Package dbstore: utils.go -/

/-- The function `NonNegativeLimit`. -/
def NonNegativeLimit (limit : Int) : Int :=
  if limit < 0 then 0 else limit

/-- The struct `PaginationParams`; a new one holds the zero values. -/
structure PaginationParams where
  Limit : Int
  DirectionNextPage : Bool
  CursorColumn : String
  CursorValue : String
  deriving DecidableEq, Repr

/-- The zero value `dbstore.PaginationParams{}`. -/
def PaginationParams.zero : PaginationParams := ⟨0, false, "", ""⟩

/-- The type `PaginationOption`, a `func(o *PaginationParams) error`: from the
params it is given, the error it returns (`none` for nil) and the params it leaves. -/
abbrev PaginationOption := PaginationParams → Option String × PaginationParams

/-- The function `WithCursor`. -/
def WithCursor (limit : Int) (directionNextPage : Bool) (cursorColumn : String)
    (cursorValue : String) : PaginationOption :=
  fun o =>
    let limit := if limit < 0 then 0 else limit
    if cursorColumn == "" then
      (some "cursor column not specified: must be specified", o)
    else
      (none, { o with Limit := limit, DirectionNextPage := directionNextPage,
                      CursorColumn := cursorColumn, CursorValue := cursorValue })

/-! ## Package obun: repository.go -/

namespace obun

/-- The type `SelectCriteria`, a `func(*bun.SelectQuery) *bun.SelectQuery`: what
the call does to the statement it is handed.  The repository drops the pointer
the criterion returns. -/
abbrev SelectCriteria := bun.SelectQuery → bun.SelectQuery

/-- The loop over `sc` that opens `FindOneWhere` and `FindManyWhere`: nil criteria
are skipped, the others run on the statement in order. -/
def applyCriteria (q : bun.SelectQuery) : List (Option SelectCriteria) → bun.SelectQuery
  | [] => q
  | none :: rest => applyCriteria q rest
  | some f :: rest => applyCriteria (f q) rest

/-- What a call of `FindManyWhere` comes to before the store answers: the option
failed and nothing was executed, or `Scan` was called on a statement. -/
inductive Outcome where
  | optionFailed (err : String)
  | scan (q : bun.SelectQuery)
  deriving DecidableEq, Repr

/-- The method `Repository.FindManyWhere`, up to the `Scan` it ends in. -/
def FindManyWhere (opt : Option PaginationOption) (sc : List (Option SelectCriteria)) :
    Outcome :=
  let q := applyCriteria bun.NewSelect sc
  match opt with
  | none => Outcome.scan q
  | some opt =>
    match opt PaginationParams.zero with
    | (some err, _) => Outcome.optionFailed err
    | (none, o) =>
      if o.DirectionNextPage then
        let q := (q.OrderExpr (o.CursorColumn ++ " ASC")).Limit o.Limit
        let q :=
          if o.CursorValue != "" then
            q.Where "? >= ?" [bun.Arg.ident o.CursorColumn,
              bun.Arg.value (some (Value.scalar (Scalar.str o.CursorValue)))]
          else q
        Outcome.scan q
      else
        let q := (q.OrderExpr (o.CursorColumn ++ " DESC")).Limit o.Limit
        let q :=
          if o.CursorValue != "" then
            q.Where "? <= ?" [bun.Arg.ident o.CursorColumn,
              bun.Arg.value (some (Value.scalar (Scalar.str o.CursorValue)))]
          else q
        Outcome.scan q

end obun

/-! ## Package xbun: repository.go -/

namespace xbun

/-- The type `SelectCriteria` of package xbun. -/
abbrev SelectCriteria := bun.SelectQuery → bun.SelectQuery

/-- The generic function `FindManyWhere`, up to the `Scan` it ends in.  On a failed
option it returns a nil slice and the error; after `Scan` it returns the slice
and the error of `Scan`. -/
def FindManyWhere (opt : Option PaginationOption) (sc : List (Option SelectCriteria)) :
    obun.Outcome :=
  let q := sc.foldl (fun q c =>
    match c with
    | none => q
    | some f => f q) bun.NewSelect
  match opt with
  | none => obun.Outcome.scan q
  | some opt =>
    match opt PaginationParams.zero with
    | (some err, _) => obun.Outcome.optionFailed err
    | (none, o) =>
      if o.DirectionNextPage then
        let q := (q.OrderExpr (o.CursorColumn ++ " ASC")).Limit o.Limit
        let q :=
          if o.CursorValue != "" then
            q.Where "? >= ?" [bun.Arg.ident o.CursorColumn,
              bun.Arg.value (some (Value.scalar (Scalar.str o.CursorValue)))]
          else q
        obun.Outcome.scan q
      else
        let q := (q.OrderExpr (o.CursorColumn ++ " DESC")).Limit o.Limit
        let q :=
          if o.CursorValue != "" then
            q.Where "? <= ?" [bun.Arg.ident o.CursorColumn,
              bun.Arg.value (some (Value.scalar (Scalar.str o.CursorValue)))]
          else q
        obun.Outcome.scan q

end xbun

/-! ## The store: what a select statement returns

The store is outside the repository.  This section reads the statements the
repository builds over a finite table, so that claims about returned rows can be
stated.  What bun and SQL fix is modelled here: clauses joined with AND binding
tighter than OR, ORDER BY as a sort by the order expressions, a LIMIT clause for
a positive limit only.  What the store decides by itself is a parameter, the
`Engine`: how it compares a stored value with a bound one, in what order it
sorts the cells of a column, how it reads the text of an order expression, and
what it makes of a clause that is neither a comparison nor a null test.
-/

namespace store

/-- A row: its columns by name.  A column the row does not list is NULL. -/
abbrev Row := List (String × Scalar)

/-- The cell of a row under a column; `none` is NULL. -/
def Row.get (r : Row) (col : String) : Option Scalar :=
  match r with
  | [] => none
  | (c, v) :: rest => if c = col then some v else Row.get rest col

/-- One sort key of an ORDER BY. -/
structure OrderKey where
  col : String
  desc : Bool
  deriving DecidableEq, Repr

/-- What the store decides by itself. -/
structure Engine where
  /-- The order in which ORDER BY puts the cells of column `col`, ascending: whether
  cell `a` may come at or before cell `b`; `none` is NULL. -/
  cellLe : (col : String) → (a b : Option Scalar) → Bool
  /-- The comparison of a stored value `x` of column `col` with a bound value `v`,
  after the conversions the store applies to a bound value for that column. -/
  compare : (col : String) → (x v : Scalar) → Ordering
  /-- The reading of one order expression as a sort key; `none` when the store
  does not take it as a column and a direction. -/
  readOrder : (expr : String) → Option OrderKey
  /-- Whether a row satisfies a clause that is neither a comparison nor a null
  test (a LIKE or IN clause, for one); `none` when the store rejects the clause. -/
  holdsOther : (r : Row) → (c : bun.QueryWithSep) → Option Bool

/-- The test on the outcome of a comparison that a template of the equality
family stands for. -/
def compareOp (query : String) : Option (Ordering → Bool) :=
  if query = "? = ?" then some (fun o => decide (o = Ordering.eq))
  else if query = "? != ?" then some (fun o => decide (o ≠ Ordering.eq))
  else if query = "? < ?" then some (fun o => decide (o = Ordering.lt))
  else if query = "? <= ?" then some (fun o => decide (o ≠ Ordering.gt))
  else if query = "? > ?" then some (fun o => decide (o = Ordering.gt))
  else if query = "? >= ?" then some (fun o => decide (o ≠ Ordering.lt))
  else none

/-- Whether a row satisfies one where clause.  A comparison of a column with a
bound basic value is decided by the comparison of the engine and is not
satisfied on a NULL cell; a null test looks at the cell; every other clause is
left to the engine.  `none`: the store rejects the clause. -/
def evalClause (E : Engine) (r : Row) (c : bun.QueryWithSep) : Option Bool :=
  match c.args with
  | [bun.Arg.ident col, bun.Arg.value (some (Value.scalar v))] =>
    match compareOp c.query with
    | some op =>
      some (match r.get col with
            | some x => op (E.compare col x v)
            | none => false)
    | none => E.holdsOther r c
  | [bun.Arg.ident col] =>
    if c.query = "? IS NULL" then some (r.get col).isNone
    else if c.query = "? IS NOT NULL" then some (r.get col).isSome
    else E.holdsOther r c
  | _ => E.holdsOther r c

/-- The clauses after the first, read with the precedence of SQL: AND binds
tighter than OR.  `cur` is the value of the run of AND-joined clauses in progress. -/
def evalWhereFrom (E : Engine) (r : Row) (cur : Bool) : List bun.QueryWithSep → Option Bool
  | [] => some cur
  | c :: rest =>
    match evalClause E r c with
    | none => none
    | some b =>
      if c.sep = " OR " then (evalWhereFrom E r b rest).map fun v => cur || v
      else if c.sep = " AND " then evalWhereFrom E r (cur && b) rest
      else none

/-- Whether a row satisfies the where clauses of a statement.  bun renders each
clause in its own parentheses and writes the separator of every clause but the
first between it and the one before. -/
def evalWhere (E : Engine) (r : Row) : List bun.QueryWithSep → Option Bool
  | [] => some true
  | c :: rest =>
    match evalClause E r c with
    | none => none
    | some b => evalWhereFrom E r b rest

/-- The rows of a table that satisfy the where clauses, in table order. -/
def filterRows (E : Engine) (ws : List bun.QueryWithSep) : List Row → Option (List Row)
  | [] => some []
  | r :: rest =>
    match evalWhere E r ws, filterRows E ws rest with
    | some b, some kept => some (if b then r :: kept else kept)
    | _, _ => none

/-- All order expressions of a statement, read in order. -/
def parseOrders (E : Engine) : List String → Option (List OrderKey)
  | [] => some []
  | e :: rest =>
    match E.readOrder e, parseOrders E rest with
    | some k, some ks => some (k :: ks)
    | _, _ => none

/-- Whether row `a` may come before row `b` under the sort keys: the first key on
which the two rows do not tie decides. -/
def rowsLe (E : Engine) : List OrderKey → Row → Row → Bool
  | [], _, _ => true
  | k :: ks, a, b =>
    if E.cellLe k.col (a.get k.col) (b.get k.col) && E.cellLe k.col (b.get k.col) (a.get k.col)
    then rowsLe E ks a b
    else if k.desc then E.cellLe k.col (b.get k.col) (a.get k.col)
    else E.cellLe k.col (a.get k.col) (b.get k.col)

/-- The rows sorted under the sort keys. -/
def sortRows (E : Engine) (keys : List OrderKey) (rows : List Row) : List Row :=
  rows.insertionSort fun a b => rowsLe E keys a b = true

/-- The rows a select statement returns from a table: the rows that satisfy its
where clauses, sorted by its order expressions, cut to its LIMIT clause when it
has one.  `none`: the store rejects the statement. -/
def runSelect (E : Engine) (table : List Row) (q : bun.SelectQuery) : Option (List Row) :=
  match parseOrders E q.order, filterRows E q.whereClauses table with
  | some keys, some kept =>
    match q.limitClause with
    | some k => some ((sortRows E keys kept).take k.toNat)
    | none => some (sortRows E keys kept)
  | _, _ => none

/-- Whether a row lies on the inclusive side of the cursor: its cursor column is
not below the cursor value when paging forward, not above it when paging
backward.  A NULL cell is on neither side. -/
def insideCursor (E : Engine) (next : Bool) (col val : String) (r : Row) : Bool :=
  match r.get col with
  | some x =>
    if next then decide (E.compare col x (Scalar.str val) ≠ Ordering.lt)
    else decide (E.compare col x (Scalar.str val) ≠ Ordering.gt)
  | none => false

/-- Whether the cursor column of a row equals the cursor value. -/
def carriesCursor (E : Engine) (col val : String) (r : Row) : Bool :=
  match r.get col with
  | some x => decide (E.compare col x (Scalar.str val) = Ordering.eq)
  | none => false

/-- Whether row `a` may come before row `b` in a page: by ascending cursor column
when paging forward, by descending when paging backward. -/
def pageOrder (E : Engine) (next : Bool) (col : String) (a b : Row) : Bool :=
  if next then E.cellLe col (a.get col) (b.get col) else E.cellLe col (b.get col) (a.get col)

/-- The forward page in the words of the specification: the first `limit` rows, in
ascending order of the cursor column, of the rows whose cursor column is at
least the cursor value. -/
def forwardPage (E : Engine) (table : List Row) (limit : Int) (col val : String) :
    List Row :=
  ((table.filter fun r =>
      match r.get col with
      | some x => decide (E.compare col x (Scalar.str val) ≠ Ordering.lt)
      | none => false).insertionSort
    fun a b => E.cellLe col (a.get col) (b.get col) = true).take limit.toNat

/-- The backward page in the words of the specification: the first `limit` rows, in
descending order of the cursor column, of the rows whose cursor column is at
most the cursor value. -/
def backwardPage (E : Engine) (table : List Row) (limit : Int) (col val : String) :
    List Row :=
  ((table.filter fun r =>
      match r.get col with
      | some x => decide (E.compare col x (Scalar.str val) ≠ Ordering.gt)
      | none => false).insertionSort
    fun a b => E.cellLe col (b.get col) (a.get col) = true).take limit.toNat

/-- The store sorts the cells of a column by a total preorder. -/
structure Engine.SortsColumn (E : Engine) (col : String) : Prop where
  total : ∀ a b, E.cellLe col a b = true ∨ E.cellLe col b a = true
  trans : ∀ a b c, E.cellLe col a b = true → E.cellLe col b c = true →
    E.cellLe col a c = true

/-- The comparisons of the store with a bound value go along its order of the
column: above a value that is not below the bound value nothing is below it, and
below a value that is not above the bound value nothing is above it. -/
structure Engine.ComparesAlong (E : Engine) (col : String) : Prop where
  upper : ∀ x y v, E.cellLe col (some x) (some y) = true →
    E.compare col x v ≠ Ordering.lt → E.compare col y v ≠ Ordering.lt
  lower : ∀ x y v, E.cellLe col (some x) (some y) = true →
    E.compare col y v ≠ Ordering.gt → E.compare col x v ≠ Ordering.gt

/-- Whether the store reads the order expressions `col ASC` and `col DESC` as the
ascending and the descending order of column `col`. -/
def Engine.readsColumn (E : Engine) (col : String) : Bool :=
  E.readOrder (col ++ " ASC") == some ⟨col, false⟩ &&
    E.readOrder (col ++ " DESC") == some ⟨col, true⟩

/-! ### A sample engine

An engine in the manner of SQLite for integers and texts, used where a theorem
is shown at a concrete table.  Stored values are ordered with every integer
before every text; a bound value is first converted to the affinity of the
column it is compared with.
-/

/-- Binary collation of texts: lexicographic on code points, which on valid UTF-8
is the byte-wise order. -/
def leChars : List Char → List Char → Bool
  | [], _ => true
  | _ :: _, [] => false
  | a :: as, b :: bs =>
    if a.toNat < b.toNat then true
    else if b.toNat < a.toNat then false
    else leChars as bs

/-- The order of stored values: integers by value, texts by binary collation, and
every integer before every text. -/
def Scalar.le : Scalar → Scalar → Bool
  | .int a, .int b => decide (a ≤ b)
  | .int _, .str _ => true
  | .str _, .int _ => false
  | .str a, .str b => leChars a.data b.data

/-- The order of cells that ORDER BY sorts with: NULL first, then the values. -/
def cellLe : Option Scalar → Option Scalar → Bool
  | none, _ => true
  | some _, none => false
  | some a, some b => Scalar.le a b

/-- The number a run of decimal digits stands for, continuing from `acc`. -/
def digitsValue : List Char → Nat → Option Nat
  | [], acc => some acc
  | c :: cs, acc =>
    if c.isDigit then digitsValue cs (10 * acc + (c.toNat - 48)) else none

/-- The integer a text stands for when it is an optional sign and decimal digits. -/
def parseDecimal (s : String) : Option Int :=
  match s.data with
  | [] => none
  | '-' :: ds => if ds.isEmpty then none else (digitsValue ds 0).map fun n => -(n : Int)
  | '+' :: ds => if ds.isEmpty then none else (digitsValue ds 0).map fun n => (n : Int)
  | ds => (digitsValue ds 0).map fun n => (n : Int)

/-- The bound value as the sample engine compares it with column `col`: for a
column of integer affinity a text that stands for an integer becomes that
integer, for any other column an integer becomes its decimal text. -/
def sampleConvert (intColumns : List String) (col : String) (v : Scalar) : Scalar :=
  if intColumns.contains col then
    match v with
    | .str s =>
      match parseDecimal s with
      | some n => Scalar.int n
      | none => Scalar.str s
    | .int n => Scalar.int n
  else
    match v with
    | .str s => Scalar.str s
    | .int n => Scalar.str (toString n)

/-- The comparison of the sample engine: the stored value against the converted
bound value, in the order of stored values. -/
def sampleCompare (intColumns : List String) (col : String) (x v : Scalar) : Ordering :=
  if Scalar.le x (sampleConvert intColumns col v) then
    if Scalar.le (sampleConvert intColumns col v) x then Ordering.eq else Ordering.lt
  else Ordering.gt

/-- The LIKE match of a text against a pattern, ignoring the case of ASCII letters:
the percent sign stands for any run of characters, the underscore for any one. -/
def like : List Char → List Char → Bool
  | [], t => t.isEmpty
  | p :: ps, t =>
    if p = '%' then t.tails.any (like ps)
    else
      match t with
      | [] => false
      | c :: cs => (p = '_' || p.toLower == c.toLower) && like ps cs

/-- The text of a stored value. -/
def Scalar.text : Scalar → String
  | .str s => s
  | .int n => toString n

/-- One value of a slice as bun writes it inside a JSON array: an integer in
decimal, a text between double quotes with quote and backslash escaped. -/
def jsonItem : Scalar → List Char
  | .int n => (toString n).data
  | .str s => Char.ofNat 34 ::
      (s.data.flatMap fun c =>
        if c = Char.ofNat 34 ∨ c = Char.ofNat 92 then [Char.ofNat 92, c] else [c]) ++
      [Char.ofNat 34]

/-- A slice as bun writes it when it is bound as one parameter: a JSON array. -/
def jsonArray (xs : List Scalar) : String :=
  String.mk ('[' :: (List.intercalate [','] (xs.map jsonItem)) ++ [']'])

/-- The sample engine on clauses other than comparisons and null tests.  It reads
the two text-match templates of `filter`, and the two set templates with the
slice bound as one parameter, which bun writes as one JSON text, so that the
column is compared with that text; it rejects everything else. -/
def sampleHoldsOther (r : Row) (c : bun.QueryWithSep) : Option Bool :=
  match c.args with
  | [bun.Arg.ident col, bun.Arg.value (some (Value.scalar (Scalar.str p)))] =>
    if c.query = "lower(?) LIKE ?" then
      some (match r.get col with
            | some x => like p.data ((Scalar.text x).data.map Char.toLower)
            | none => false)
    else if c.query = "lower(?) NOT LIKE ?" then
      some (match r.get col with
            | some x => !like p.data ((Scalar.text x).data.map Char.toLower)
            | none => false)
    else none
  | [bun.Arg.ident col, bun.Arg.value (some (Value.slice xs))] =>
    if c.query = "? IN (?)" then
      some (match r.get col with
            | some x => x == Scalar.str (jsonArray xs)
            | none => false)
    else if c.query = "? NOT IN (?)" then
      some (match r.get col with
            | some x => x != Scalar.str (jsonArray xs)
            | none => false)
    else none
  | _ => none

/-- A column name the sample engine takes as such in ORDER BY: letters, digits,
underscores, dots and non-ASCII characters, not starting with a digit. -/
def plainColumn (col : List Char) : Bool :=
  match col with
  | [] => false
  | c :: _ => !c.isDigit &&
      col.all fun d => d.isAlphanum || d == '_' || d == '.' || 127 < d.toNat

/-- The sort key for a column name read off an order expression. -/
def orderKey (col : List Char) (desc : Bool) : Option OrderKey :=
  if plainColumn col then some ⟨String.mk col, desc⟩ else none

/-- The sample engine on an order expression: a column name followed by `ASC` or
`DESC` (keyword in either case), read from its end. -/
def parseOrder (expr : String) : Option OrderKey :=
  match expr.data.reverse with
  | 'C' :: 'S' :: 'A' :: ' ' :: col => orderKey col.reverse false
  | 'c' :: 's' :: 'a' :: ' ' :: col => orderKey col.reverse false
  | 'C' :: 'S' :: 'E' :: 'D' :: ' ' :: col => orderKey col.reverse true
  | 'c' :: 's' :: 'e' :: 'd' :: ' ' :: col => orderKey col.reverse true
  | _ => none

/-- The sample engine, for a table whose columns `intColumns` have integer
affinity and whose other columns have text affinity. -/
def sampleEngine (intColumns : List String) : Engine where
  cellLe := fun _ a b => cellLe a b
  compare := sampleCompare intColumns
  readOrder := parseOrder
  holdsOther := sampleHoldsOther

/-- The four books the repository tests seed, with text ids. -/
def books : List Row :=
  [[("id", Scalar.str "1"), ("title", Scalar.str "Title 1")],
   [("id", Scalar.str "2"), ("title", Scalar.str "Title 2")],
   [("id", Scalar.str "3"), ("title", Scalar.str "Title 3")],
   [("id", Scalar.str "4"), ("title", Scalar.str "Title 4")]]

/-- Four rows with a numeric cursor column valued 1 to 4. -/
def numbered : List Row :=
  [[("id", Scalar.int 1), ("title", Scalar.str "Title 1")],
   [("id", Scalar.int 2), ("title", Scalar.str "Title 2")],
   [("id", Scalar.int 3), ("title", Scalar.str "Title 3")],
   [("id", Scalar.int 4), ("title", Scalar.str "Title 4")]]

end store

/-! ## Theorems -/

/-! ### Helper lemmas -/

theorem forall_mem_dropWhile {α : Type} (p : α → Bool) (l : List α) :
    (∀ x ∈ l.dropWhile p, p x = true) ↔ ∀ x ∈ l, p x = true := by
  induction l with
  | nil => simp
  | cons a t ih =>
    by_cases ha : p a = true
    · simp [List.dropWhile_cons, ha, ih]
    · simp [List.dropWhile_cons, ha]

theorem string_mk_beq_empty (l : List Char) : (String.mk l == "") = true ↔ l = [] := by
  rw [beq_iff_eq]
  constructor
  · intro h
    have := congrArg String.data h
    simpa using this
  · rintro rfl
    rfl

/-- The function `empty` holds exactly of the strings made of white space only,
the empty string among them. -/
theorem empty_iff (s : String) :
    filter.empty s = true ↔ s.data.all unicode.IsSpace = true := by
  unfold filter.empty strings.TrimSpace
  rw [string_mk_beq_empty, List.reverse_eq_nil_iff, List.dropWhile_eq_nil_iff]
  simp only [List.mem_reverse, forall_mem_dropWhile, List.all_eq_true]

theorem empty_of_degenerate (s : String)
    (h : s = "" ∨ s.data.all unicode.IsSpace = true) : filter.empty s = true := by
  rw [empty_iff]
  rcases h with h | h
  · subst h
    rfl
  · exact h

theorem not_empty_of_not_degenerate (s : String)
    (h : ¬ (s = "" ∨ s.data.all unicode.IsSpace = true)) : filter.empty s = false := by
  cases he : filter.empty s with
  | false => rfl
  | true => exact absurd (Or.inr ((empty_iff s).mp he)) h

/-! ### Predicate construction (operators.go) -/

/-- C1: on degenerate input every one of the fourteen value-taking constructors
returns no predicate: the six comparisons on the nil value, the six text
matches on a string that is empty or made of white space only, `In` and `NotIn`
on the empty list. -/
theorem C1_degenerate_input_gives_no_predicate (columnName : String) (value : String)
    (hv : value = "" ∨ value.data.all unicode.IsSpace = true) :
    filter.Equal columnName none = none ∧
    filter.NotEqual columnName none = none ∧
    filter.LessThan columnName none = none ∧
    filter.LessThanOrEqual columnName none = none ∧
    filter.GreaterThan columnName none = none ∧
    filter.GreaterThanOrEqual columnName none = none ∧
    filter.Contains columnName value = none ∧
    filter.NotContains columnName value = none ∧
    filter.StartsWith columnName value = none ∧
    filter.NotStartsWith columnName value = none ∧
    filter.EndsWith columnName value = none ∧
    filter.NotEndsWith columnName value = none ∧
    filter.In columnName [] = none ∧
    filter.NotIn columnName [] = none := by
  have he := empty_of_degenerate value hv
  simp [filter.Equal, filter.NotEqual, filter.LessThan, filter.LessThanOrEqual,
    filter.GreaterThan, filter.GreaterThanOrEqual, filter.Contains, filter.NotContains,
    filter.StartsWith, filter.NotStartsWith, filter.EndsWith, filter.NotEndsWith,
    filter.In, filter.NotIn, filter.newSqlWhereStmt, he]

/-- C1 at the column "name" and the string made of a space, a tab and U+3000. -/
theorem C1_witness :
    filter.Contains "name" (String.mk [Char.ofNat 32, Char.ofNat 9, Char.ofNat 0x3000]) = none ∧
    filter.Equal "name" none = none ∧
    filter.In "name" [] = none :=
  have h := C1_degenerate_input_gives_no_predicate "name"
    (String.mk [Char.ofNat 32, Char.ofNat 9, Char.ofNat 0x3000]) (Or.inr (by decide))
  ⟨h.2.2.2.2.2.2.1, h.1, h.2.2.2.2.2.2.2.2.2.2.2.2.1⟩

/-- C2: on a non-nil value each of the six comparison constructors returns a
predicate with the given column, the value unchanged, the null-test flag off and
its own template; hence each returns no predicate exactly on the nil value. -/
theorem C2_comparison_constructors (columnName : String) (v : Value) :
    filter.Equal columnName (some v) = some ⟨"? = ?", columnName, some v, false⟩ ∧
    filter.NotEqual columnName (some v) = some ⟨"? != ?", columnName, some v, false⟩ ∧
    filter.LessThan columnName (some v) = some ⟨"? < ?", columnName, some v, false⟩ ∧
    filter.LessThanOrEqual columnName (some v) = some ⟨"? <= ?", columnName, some v, false⟩ ∧
    filter.GreaterThan columnName (some v) = some ⟨"? > ?", columnName, some v, false⟩ ∧
    filter.GreaterThanOrEqual columnName (some v) = some ⟨"? >= ?", columnName, some v, false⟩ ∧
    ∀ value : GoAny,
      (filter.Equal columnName value = none ↔ value = none) ∧
      (filter.NotEqual columnName value = none ↔ value = none) ∧
      (filter.LessThan columnName value = none ↔ value = none) ∧
      (filter.LessThanOrEqual columnName value = none ↔ value = none) ∧
      (filter.GreaterThan columnName value = none ↔ value = none) ∧
      (filter.GreaterThanOrEqual columnName value = none ↔ value = none) := by
  refine ⟨rfl, rfl, rfl, rfl, rfl, rfl, ?_⟩
  intro value
  cases value <;>
    simp [filter.Equal, filter.NotEqual, filter.LessThan, filter.LessThanOrEqual,
      filter.GreaterThan, filter.GreaterThanOrEqual, filter.newSqlWhereStmt]

/-- C3: on a string that is neither empty nor made of white space only, each text
match constructor returns a predicate on the given column, null-test flag off,
binding the raw value wrapped with the percent sign (both sides for Contains,
after it for StartsWith, before it for EndsWith), under the template
`lower(?) LIKE ?`, or `lower(?) NOT LIKE ?` for the negated operators. -/
theorem C3_text_match_constructors (columnName : String) (value : String)
    (hv : ¬ (value = "" ∨ value.data.all unicode.IsSpace = true)) :
    filter.Contains columnName value =
      some ⟨"lower(?) LIKE ?", columnName,
        some (Value.scalar (Scalar.str ("%" ++ value ++ "%"))), false⟩ ∧
    filter.NotContains columnName value =
      some ⟨"lower(?) NOT LIKE ?", columnName,
        some (Value.scalar (Scalar.str ("%" ++ value ++ "%"))), false⟩ ∧
    filter.StartsWith columnName value =
      some ⟨"lower(?) LIKE ?", columnName,
        some (Value.scalar (Scalar.str (value ++ "%"))), false⟩ ∧
    filter.NotStartsWith columnName value =
      some ⟨"lower(?) NOT LIKE ?", columnName,
        some (Value.scalar (Scalar.str (value ++ "%"))), false⟩ ∧
    filter.EndsWith columnName value =
      some ⟨"lower(?) LIKE ?", columnName,
        some (Value.scalar (Scalar.str ("%" ++ value))), false⟩ ∧
    filter.NotEndsWith columnName value =
      some ⟨"lower(?) NOT LIKE ?", columnName,
        some (Value.scalar (Scalar.str ("%" ++ value))), false⟩ := by
  have he := not_empty_of_not_degenerate value hv
  simp [filter.Contains, filter.NotContains, filter.StartsWith, filter.NotStartsWith,
    filter.EndsWith, filter.NotEndsWith, filter.newSqlWhereStmt, filter.boxString, he]

/-- C3 at the column "name" and the mixed-case value " GooGle": the pattern keeps
the leading space and the capitals. -/
theorem C3_witness :
    filter.Contains "name" " GooGle" =
      some ⟨"lower(?) LIKE ?", "name", some (Value.scalar (Scalar.str "% GooGle%")), false⟩ ∧
    filter.NotStartsWith "name" " GooGle" =
      some ⟨"lower(?) NOT LIKE ?", "name", some (Value.scalar (Scalar.str " GooGle%")), false⟩ :=
  have h := C3_text_match_constructors "name" " GooGle" (by decide)
  ⟨h.1, h.2.2.2.1⟩

/-- C4: `In` and `NotIn` return no predicate exactly on the empty list; on any
other list they return a predicate on the given column, null-test flag off, with
the template `? IN (?)`, respectively `? NOT IN (?)`, binding the whole list as it
was given. -/
theorem C4_set_constructors (columnName : String) (xs : List Scalar) :
    (filter.In columnName xs = none ↔ xs = []) ∧
    (filter.NotIn columnName xs = none ↔ xs = []) ∧
    (xs ≠ [] →
      filter.In columnName xs =
        some ⟨"? IN (?)", columnName, some (Value.slice xs), false⟩ ∧
      filter.NotIn columnName xs =
        some ⟨"? NOT IN (?)", columnName, some (Value.slice xs), false⟩) := by
  cases xs <;> simp [filter.In, filter.NotIn, filter.newSqlWhereStmt]

/-- C4 at the column "phone" and the list of the test suite. -/
theorem C4_witness :
    filter.In "phone" [Scalar.str "in_1", Scalar.str "in_2"] =
      some ⟨"? IN (?)", "phone",
        some (Value.slice [Scalar.str "in_1", Scalar.str "in_2"]), false⟩ ∧
    filter.NotIn "phone" [Scalar.str "in_1", Scalar.str "in_2"] =
      some ⟨"? NOT IN (?)", "phone",
        some (Value.slice [Scalar.str "in_1", Scalar.str "in_2"]), false⟩ :=
  (C4_set_constructors "phone" [Scalar.str "in_1", Scalar.str "in_2"]).2.2 (by decide)

/-- C5: for every column name `IsNull` and `IsNotNull` return a predicate with the
null-test flag on, no bound value, the given column and the template `? IS NULL`,
respectively `? IS NOT NULL`; and whatever predicate one of the other fourteen
constructors returns has the flag off. -/
theorem C5_null_constructors (columnName : String) :
    filter.IsNull columnName = some ⟨"? IS NULL", columnName, none, true⟩ ∧
    filter.IsNotNull columnName = some ⟨"? IS NOT NULL", columnName, none, true⟩ ∧
    ∀ (c : String) (value : GoAny) (s : String) (xs : List Scalar),
      ∀ r ∈ [filter.Equal c value, filter.NotEqual c value, filter.LessThan c value,
             filter.LessThanOrEqual c value, filter.GreaterThan c value,
             filter.GreaterThanOrEqual c value, filter.Contains c s, filter.NotContains c s,
             filter.StartsWith c s, filter.NotStartsWith c s, filter.EndsWith c s,
             filter.NotEndsWith c s, filter.In c xs, filter.NotIn c xs],
        ∀ p : filter.sqlWhere, r = some p → p.sql_IsNullQueryType = false := by
  refine ⟨rfl, rfl, ?_⟩
  intro c value s xs r hr p hp
  have key : ∀ (skip : Bool) (t : String) (v : GoAny),
      filter.newSqlWhereStmt skip t c v = some p → p.sql_IsNullQueryType = false := by
    intro skip t v h
    unfold filter.newSqlWhereStmt at h
    split at h
    · cases h
    · cases h
      rfl
  simp only [List.mem_cons, List.mem_singleton, List.not_mem_nil, or_false] at hr
  rcases hr with h | h | h | h | h | h | h | h | h | h | h | h | h | h <;>
    (subst h; exact key _ _ _ hp)

/-- C5 at the empty column name, and at a predicate `Equal` does return. -/
theorem C5_witness :
    filter.IsNull "" = some ⟨"? IS NULL", "", none, true⟩ ∧
    (⟨"? = ?", "id", some (Value.scalar (Scalar.int 2)), false⟩ :
      filter.sqlWhere).sql_IsNullQueryType = false :=
  ⟨(C5_null_constructors "").1,
   (C5_null_constructors "").2.2 "id" (some (Value.scalar (Scalar.int 2))) "" []
     (filter.Equal "id" (some (Value.scalar (Scalar.int 2)))) (by simp) _ rfl⟩

/-! ### Query composition (filter.go) -/

theorem Where_some (bunQ : filter.Stmt) (p : filter.sqlWhere) :
    filter.Where bunQ (some p) =
      bunQ.withWhere (bunQ.whereClauses ++ [⟨" AND ", p.stmt, p.operands⟩]) := by
  cases bunQ <;> cases hp : p.sql_IsNullQueryType <;>
    simp [filter.Where, filter.sqlWhere.isANullQueryType, filter.sqlWhere.operands,
      filter.Stmt.withWhere, filter.Stmt.whereClauses, bun.SelectQuery.Where,
      bun.UpdateQuery.Where, bun.DeleteQuery.Where, hp]

theorem OrWhere_some (bunQ : filter.Stmt) (p : filter.sqlWhere) :
    filter.OrWhere bunQ (some p) =
      bunQ.withWhere (bunQ.whereClauses ++ [⟨" OR ", p.stmt, p.operands⟩]) := by
  cases bunQ <;> cases hp : p.sql_IsNullQueryType <;>
    simp [filter.OrWhere, filter.sqlWhere.isANullQueryType, filter.sqlWhere.operands,
      filter.Stmt.withWhere, filter.Stmt.whereClauses, bun.SelectQuery.WhereOr,
      bun.UpdateQuery.WhereOr, bun.DeleteQuery.WhereOr, hp]

theorem withWhere_whereClauses (s : filter.Stmt) (ws : List bun.QueryWithSep) :
    (s.withWhere ws).whereClauses = ws := by
  cases s <;> rfl

theorem withWhere_withWhere (s : filter.Stmt) (ws ws2 : List bun.QueryWithSep) :
    (s.withWhere ws).withWhere ws2 = s.withWhere ws2 := by
  cases s <;> rfl

theorem withWhere_self (s : filter.Stmt) : s.withWhere s.whereClauses = s := by
  cases s <;> rfl

theorem Call_run_eq (bunQ : filter.Stmt) (c : filter.Call) :
    filter.Call.run bunQ c = bunQ.withWhere (bunQ.whereClauses ++ c.clause.toList) := by
  rcases c with (_ | p) | (_ | p)
  · simp [filter.Call.run, filter.Call.clause, filter.Where, withWhere_self]
  · simp [filter.Call.run, filter.Call.clause, Where_some]
  · simp [filter.Call.run, filter.Call.clause, filter.OrWhere, withWhere_self]
  · simp [filter.Call.run, filter.Call.clause, OrWhere_some]

/-- C6: for a statement of any of the three kinds and a predicate `p`, `Where`
appends exactly one AND-joined clause and `OrWhere` exactly one OR-joined clause,
with the template of `p`; its operands are the column identifier alone when `p` is
a null test, and the identifier followed by the bound value otherwise.  Nothing
else of the statement changes, and the template is the text of the clause
whatever the value is. -/
theorem C6_where_appends_one_clause (bunQ : filter.Stmt) (p : filter.sqlWhere) :
    filter.Where bunQ (some p) =
      bunQ.withWhere (bunQ.whereClauses ++
        [⟨" AND ", p.stmt,
          if p.sql_IsNullQueryType then [bun.Arg.ident p.columnName]
          else [bun.Arg.ident p.columnName, bun.Arg.value p.columnValue]⟩]) ∧
    filter.OrWhere bunQ (some p) =
      bunQ.withWhere (bunQ.whereClauses ++
        [⟨" OR ", p.stmt,
          if p.sql_IsNullQueryType then [bun.Arg.ident p.columnName]
          else [bun.Arg.ident p.columnName, bun.Arg.value p.columnValue]⟩]) :=
  ⟨Where_some bunQ p, OrWhere_some bunQ p⟩

/-- C7: with no predicate, `Where` and `OrWhere` return the statement as it was. -/
theorem C7_nil_predicate_is_noop (bunQ : filter.Stmt) :
    filter.Where bunQ none = bunQ ∧ filter.OrWhere bunQ none = bunQ :=
  ⟨rfl, rfl⟩

/-- C8: after any finite sequence of `Where` and `OrWhere` calls the where clauses
of the statement are the original ones followed by one clause for each call with
a predicate, in call order, each with the separator of its call; the rest of the
statement is unchanged. -/
theorem C8_calls_append_in_order (bunQ : filter.Stmt) (calls : List filter.Call) :
    filter.runCalls bunQ calls =
      bunQ.withWhere (bunQ.whereClauses ++ calls.filterMap filter.Call.clause) := by
  unfold filter.runCalls
  induction calls generalizing bunQ with
  | nil => simp [withWhere_self]
  | cons c rest ih =>
    rw [List.foldl_cons, ih, Call_run_eq, withWhere_withWhere, withWhere_whereClauses]
    cases hc : c.clause <;> simp [List.filterMap_cons, hc]

/-! ### Cursor pagination (utils.go, repository.go) -/

theorem int32_of_fits (n : Int) (hlo : -2147483648 ≤ n) (hhi : n < 2147483648) :
    int32 n = n := by
  unfold int32
  omega

theorem FindManyWhere_withCursor (sc : List (Option obun.SelectCriteria)) (limit : Int)
    (next : Bool) (col val : String) (hcol : col ≠ "") :
    obun.FindManyWhere (some (WithCursor limit next col val)) sc =
      obun.Outcome.scan
        { whereClauses := (obun.applyCriteria bun.NewSelect sc).whereClauses ++
            (if val = "" then []
             else [⟨" AND ", if next then "? >= ?" else "? <= ?",
                    [bun.Arg.ident col, bun.Arg.value (some (Value.scalar (Scalar.str val)))]⟩]),
          order := (obun.applyCriteria bun.NewSelect sc).order ++
            [col ++ (if next then " ASC" else " DESC")],
          limit := int32 (max limit 0) } := by
  have hmax : (if limit < 0 then 0 else limit) = max limit 0 := by
    split <;> omega
  cases next <;> by_cases hval : val = "" <;>
    simp [obun.FindManyWhere, WithCursor, PaginationParams.zero, hcol, hval, hmax,
      bun.SelectQuery.OrderExpr, bun.SelectQuery.Limit, bun.SelectQuery.Where]

/-- C9 as the code has it: with a non-empty cursor column, `FindManyWhere` scans the
statement the criteria built with exactly this added: the order expression
`col ASC` when paging forward and `col DESC` when paging backward, the limit
`max limit 0` narrowed to 32 bits, which is `max limit 0` itself whenever `limit` is
below 2^31, and, when and only when the cursor value is non-empty, one AND-joined
clause `? >= ?` (forward) or `? <= ?` (backward) whose operands are the column
identifier and the cursor value bound as a parameter. -/
theorem C9_paginated_statement (sc : List (Option obun.SelectCriteria)) (limit : Int)
    (next : Bool) (col val : String) (hcol : col ≠ "") :
    obun.FindManyWhere (some (WithCursor limit next col val)) sc =
      obun.Outcome.scan
        { whereClauses := (obun.applyCriteria bun.NewSelect sc).whereClauses ++
            (if val = "" then []
             else [⟨" AND ", if next then "? >= ?" else "? <= ?",
                    [bun.Arg.ident col, bun.Arg.value (some (Value.scalar (Scalar.str val)))]⟩]),
          order := (obun.applyCriteria bun.NewSelect sc).order ++
            [col ++ (if next then " ASC" else " DESC")],
          limit := int32 (max limit 0) } ∧
    (limit < 2147483648 → int32 (max limit 0) = max limit 0) :=
  ⟨FindManyWhere_withCursor sc limit next col val hcol,
   fun h => int32_of_fits _ (by omega) (by omega)⟩

/-- C9 after a criterion that filters on the title: forward from "2" with a
negative limit, and backward with no cursor value. -/
theorem C9_witness :
    obun.FindManyWhere (some (WithCursor (-5) true "id" "2"))
        [none, some (fun q => q.Where "? = ?" [bun.Arg.ident "title"])] =
      obun.Outcome.scan
        { whereClauses := [⟨" AND ", "? = ?", [bun.Arg.ident "title"]⟩,
            ⟨" AND ", "? >= ?",
              [bun.Arg.ident "id", bun.Arg.value (some (Value.scalar (Scalar.str "2")))]⟩],
          order := ["id ASC"], limit := 0 } ∧
    obun.FindManyWhere (some (WithCursor 10 false "id" "")) [] =
      obun.Outcome.scan { whereClauses := [], order := ["id DESC"], limit := 10 } :=
  ⟨(C9_paginated_statement [none, some (fun q => q.Where "? = ?" [bun.Arg.ident "title"])]
     (-5) true "id" "2" (by decide)).1,
   (C9_paginated_statement [] 10 false "id" "" (by decide)).1⟩

/-- C9 as stated fails at the limit 4294967297, which is 2^32 + 1: bun keeps the
limit as an `int32`, so the statement carries the limit 1, not 4294967297. -/
theorem C9_counterexample :
    obun.FindManyWhere (some (WithCursor 4294967297 true "id" "2")) [] =
      obun.Outcome.scan
        { whereClauses := [⟨" AND ", "? >= ?",
            [bun.Arg.ident "id", bun.Arg.value (some (Value.scalar (Scalar.str "2")))]⟩],
          order := ["id ASC"], limit := 1 } ∧
    (1 : Int) ≠ max 4294967297 0 :=
  ⟨by rfl, by decide⟩

/-! ### The order of cells -/

theorem char_eq_of_toNat_not_lt (a b : Char) (h1 : ¬ a.toNat < b.toNat)
    (h2 : ¬ b.toNat < a.toNat) : a = b := by
  apply Char.ext
  apply UInt32.ext
  have : a.toNat = b.toNat := by omega
  exact this

theorem leChars_refl (a : List Char) : store.leChars a a = true := by
  induction a with
  | nil => rfl
  | cons x t ih => simp [store.leChars, ih]

theorem leChars_total (a b : List Char) :
    store.leChars a b = true ∨ store.leChars b a = true := by
  induction a generalizing b with
  | nil => exact Or.inl rfl
  | cons x t ih =>
    cases b with
    | nil => exact Or.inr rfl
    | cons y u =>
      simp only [store.leChars]
      by_cases h1 : x.toNat < y.toNat
      · simp [h1]
      · by_cases h2 : y.toNat < x.toNat
        · simp [h2]
        · simpa [h1, h2] using ih u

theorem leChars_antisymm (a b : List Char) (hab : store.leChars a b = true)
    (hba : store.leChars b a = true) : a = b := by
  induction a generalizing b with
  | nil =>
    cases b with
    | nil => rfl
    | cons y u => simp [store.leChars] at hba
  | cons x t ih =>
    cases b with
    | nil => simp [store.leChars] at hab
    | cons y u =>
      simp only [store.leChars] at hab hba
      by_cases h1 : x.toNat < y.toNat
      · have h2 : ¬ y.toNat < x.toNat := by omega
        simp [h1, h2] at hba
      · by_cases h2 : y.toNat < x.toNat
        · simp [h1, h2] at hab
        · simp only [h1, h2, if_false] at hab hba
          rw [char_eq_of_toNat_not_lt x y h1 h2, ih u hab hba]

theorem leChars_trans (a b c : List Char) (hab : store.leChars a b = true)
    (hbc : store.leChars b c = true) : store.leChars a c = true := by
  induction a generalizing b c with
  | nil => rfl
  | cons x t ih =>
    cases b with
    | nil => simp [store.leChars] at hab
    | cons y u =>
      cases c with
      | nil => simp [store.leChars] at hbc
      | cons z w =>
        simp only [store.leChars] at hab hbc ⊢
        by_cases hxy : x.toNat < y.toNat
        · by_cases hyz : y.toNat < z.toNat
          · have : x.toNat < z.toNat := by omega
            simp [this]
          · by_cases hzy : z.toNat < y.toNat
            · simp [hyz, hzy] at hbc
            · have : x.toNat < z.toNat := by omega
              simp [this]
        · by_cases hyx : y.toNat < x.toNat
          · simp [hxy, hyx] at hab
          · simp only [hxy, hyx, if_false] at hab
            by_cases hyz : y.toNat < z.toNat
            · have : x.toNat < z.toNat := by omega
              simp [this]
            · by_cases hzy : z.toNat < y.toNat
              · simp [hyz, hzy] at hbc
              · simp only [hyz, hzy, if_false] at hbc
                have h1 : ¬ x.toNat < z.toNat := by omega
                have h2 : ¬ z.toNat < x.toNat := by omega
                simp only [h1, h2, if_false]
                exact ih u w hab hbc

theorem Scalar_le_refl (a : Scalar) : store.Scalar.le a a = true := by
  cases a <;> simp [store.Scalar.le, leChars_refl]

theorem Scalar_le_total (a b : Scalar) :
    store.Scalar.le a b = true ∨ store.Scalar.le b a = true := by
  cases a <;> cases b <;> simp [store.Scalar.le, leChars_total, Int.le_total]

theorem Scalar_le_antisymm (a b : Scalar) (hab : store.Scalar.le a b = true)
    (hba : store.Scalar.le b a = true) : a = b := by
  cases a <;> cases b <;> simp [store.Scalar.le] at hab hba ⊢
  · omega
  · exact String.ext (leChars_antisymm _ _ hab hba)

theorem Scalar_le_trans (a b c : Scalar) (hab : store.Scalar.le a b = true)
    (hbc : store.Scalar.le b c = true) : store.Scalar.le a c = true := by
  cases a <;> cases b <;> cases c <;> simp [store.Scalar.le] at hab hbc ⊢
  · omega
  · exact leChars_trans _ _ _ hab hbc

theorem cellLe_refl (a : Option Scalar) : store.cellLe a a = true := by
  cases a <;> simp [store.cellLe, Scalar_le_refl]

theorem cellLe_total (a b : Option Scalar) :
    store.cellLe a b = true ∨ store.cellLe b a = true := by
  cases a <;> cases b <;> simp [store.cellLe, Scalar_le_total]

theorem cellLe_trans (a b c : Option Scalar) (hab : store.cellLe a b = true)
    (hbc : store.cellLe b c = true) : store.cellLe a c = true := by
  cases a <;> cases b <;> cases c <;> simp [store.cellLe] at hab hbc ⊢
  exact Scalar_le_trans _ _ _ hab hbc

/-! ### The sample engine -/

theorem sampleCompare_ne_lt (intColumns : List String) (col : String) (x v : Scalar) :
    store.sampleCompare intColumns col x v ≠ Ordering.lt ↔
      store.Scalar.le (store.sampleConvert intColumns col v) x = true := by
  unfold store.sampleCompare
  rcases Scalar_le_total x (store.sampleConvert intColumns col v) with h | h
  · cases h2 : store.Scalar.le (store.sampleConvert intColumns col v) x <;> simp [h, h2]
  · cases h1 : store.Scalar.le x (store.sampleConvert intColumns col v) <;> simp [h, h1]

theorem sampleCompare_ne_gt (intColumns : List String) (col : String) (x v : Scalar) :
    store.sampleCompare intColumns col x v ≠ Ordering.gt ↔
      store.Scalar.le x (store.sampleConvert intColumns col v) = true := by
  unfold store.sampleCompare
  cases h1 : store.Scalar.le x (store.sampleConvert intColumns col v) <;>
    cases h2 : store.Scalar.le (store.sampleConvert intColumns col v) x <;> simp

theorem sampleEngine_sorts (intColumns : List String) (col : String) :
    (store.sampleEngine intColumns).SortsColumn col :=
  ⟨fun a b => cellLe_total a b, fun a b c hab hbc => cellLe_trans a b c hab hbc⟩

theorem sampleEngine_compares (intColumns : List String) (col : String) :
    (store.sampleEngine intColumns).ComparesAlong col := by
  constructor
  · intro x y v hxy hx
    have h1 := (sampleCompare_ne_lt intColumns col x v).mp hx
    exact (sampleCompare_ne_lt intColumns col y v).mpr (Scalar_le_trans _ _ _ h1 hxy)
  · intro x y v hxy hy
    have h1 := (sampleCompare_ne_gt intColumns col y v).mp hy
    exact (sampleCompare_ne_gt intColumns col x v).mpr (Scalar_le_trans _ _ _ hxy h1)

/-! ### Reading the paginated statement -/

theorem readsColumn_asc (E : store.Engine) (col : String) (h : E.readsColumn col = true) :
    E.readOrder (col ++ " ASC") = some ⟨col, false⟩ := by
  simp only [store.Engine.readsColumn, Bool.and_eq_true, beq_iff_eq] at h
  exact h.1

theorem readsColumn_desc (E : store.Engine) (col : String) (h : E.readsColumn col = true) :
    E.readOrder (col ++ " DESC") = some ⟨col, true⟩ := by
  simp only [store.Engine.readsColumn, Bool.and_eq_true, beq_iff_eq] at h
  exact h.2

theorem filterRows_eq_filter (E : store.Engine) (ws : List bun.QueryWithSep)
    (f : store.Row → Bool) (table : List store.Row)
    (h : ∀ r ∈ table, store.evalWhere E r ws = some (f r)) :
    store.filterRows E ws table = some (table.filter f) := by
  induction table with
  | nil => rfl
  | cons r rest ih =>
    have hr := h r (List.mem_cons_self r rest)
    have hrest := ih (fun r2 h2 => h r2 (List.mem_cons_of_mem r h2))
    simp only [store.filterRows, hr, hrest, List.filter_cons]

theorem insertionSort_congr {α : Type} (r s : α → α → Prop) [DecidableRel r] [DecidableRel s]
    (h : ∀ a b, r a b ↔ s a b) (l : List α) :
    l.insertionSort r = l.insertionSort s := by
  have hins : ∀ (a : α) (m : List α), m.orderedInsert r a = m.orderedInsert s a := by
    intro a m
    induction m with
    | nil => rfl
    | cons b t ih =>
      by_cases hab : r a b
      · have hs : s a b := (h a b).mp hab
        simp [List.orderedInsert, hab, hs]
      · have hs : ¬ s a b := fun hs => hab ((h a b).mpr hs)
        simp [List.orderedInsert, hab, hs, ih]
  induction l with
  | nil => rfl
  | cons a t ih => simp [List.insertionSort, ih, hins]

theorem sortRows_asc (E : store.Engine) (col : String) (rows : List store.Row) :
    store.sortRows E [⟨col, false⟩] rows =
      rows.insertionSort fun a b => E.cellLe col (a.get col) (b.get col) = true := by
  unfold store.sortRows
  apply insertionSort_congr
  intro a b
  cases h1 : E.cellLe col (a.get col) (b.get col) <;>
    cases h2 : E.cellLe col (b.get col) (a.get col) <;> simp [store.rowsLe, h1, h2]

theorem sortRows_desc (E : store.Engine) (col : String) (rows : List store.Row) :
    store.sortRows E [⟨col, true⟩] rows =
      rows.insertionSort fun a b => E.cellLe col (b.get col) (a.get col) = true := by
  unfold store.sortRows
  apply insertionSort_congr
  intro a b
  cases h1 : E.cellLe col (a.get col) (b.get col) <;>
    cases h2 : E.cellLe col (b.get col) (a.get col) <;> simp [store.rowsLe, h1, h2]

theorem sorted_by_cell (E : store.Engine) (col : String) (hsort : E.SortsColumn col)
    (rows : List store.Row) :
    (rows.insertionSort fun a b => E.cellLe col (a.get col) (b.get col) = true).Sorted
      fun a b => E.cellLe col (a.get col) (b.get col) = true := by
  haveI : IsTotal store.Row (fun a b => E.cellLe col (a.get col) (b.get col) = true) :=
    ⟨fun a b => hsort.total (a.get col) (b.get col)⟩
  haveI : IsTrans store.Row (fun a b => E.cellLe col (a.get col) (b.get col) = true) :=
    ⟨fun a b c hab hbc => hsort.trans (a.get col) (b.get col) (c.get col) hab hbc⟩
  exact List.sorted_insertionSort _ rows

theorem sorted_by_cell_desc (E : store.Engine) (col : String) (hsort : E.SortsColumn col)
    (rows : List store.Row) :
    (rows.insertionSort fun a b => E.cellLe col (b.get col) (a.get col) = true).Sorted
      fun a b => E.cellLe col (b.get col) (a.get col) = true := by
  haveI : IsTotal store.Row (fun a b => E.cellLe col (b.get col) (a.get col) = true) :=
    ⟨fun a b => hsort.total (b.get col) (a.get col)⟩
  haveI : IsTrans store.Row (fun a b => E.cellLe col (b.get col) (a.get col) = true) :=
    ⟨fun a b c hab hbc => hsort.trans (c.get col) (b.get col) (a.get col) hbc hab⟩
  exact List.sorted_insertionSort _ rows

theorem evalClause_cursor (E : store.Engine) (next : Bool) (col val : String) (r : store.Row) :
    store.evalClause E r ⟨" AND ", if next then "? >= ?" else "? <= ?",
      [bun.Arg.ident col, bun.Arg.value (some (Value.scalar (Scalar.str val)))]⟩ =
      some (store.insideCursor E next col val r) := by
  cases next <;> cases hx : r.get col <;>
    simp [store.evalClause, store.compareOp, store.insideCursor, hx]

theorem parseOrders_cursor (E : store.Engine) (next : Bool) (col : String)
    (hread : E.readsColumn col = true) :
    store.parseOrders E [col ++ (if next then " ASC" else " DESC")] = some [⟨col, !next⟩] := by
  cases next <;>
    simp [store.parseOrders, readsColumn_asc E col hread, readsColumn_desc E col hread]

theorem runSelect_forward (E : store.Engine) (table : List store.Row) (limit : Int)
    (col val : String) (hlimit : 0 < limit) (hread : E.readsColumn col = true) :
    store.runSelect E table
        { whereClauses := [⟨" AND ", "? >= ?",
            [bun.Arg.ident col, bun.Arg.value (some (Value.scalar (Scalar.str val)))]⟩],
          order := [col ++ " ASC"], limit := limit } =
      some (store.forwardPage E table limit col val) := by
  have hw := filterRows_eq_filter E
    [⟨" AND ", "? >= ?", [bun.Arg.ident col, bun.Arg.value (some (Value.scalar (Scalar.str val)))]⟩]
    (fun r => match r.get col with
      | some x => decide (E.compare col x (Scalar.str val) ≠ Ordering.lt)
      | none => false)
    table
    (by
      intro r _
      have h := evalClause_cursor E true col val r
      simp only [if_true] at h
      simp only [store.evalWhere, h, store.evalWhereFrom, store.insideCursor, if_true])
  have ho := parseOrders_cursor E true col hread
  simp only [if_true, Bool.not_true] at ho
  simp only [store.runSelect, ho, hw, sortRows_asc, bun.SelectQuery.limitClause, hlimit,
    if_true, store.forwardPage]

theorem runSelect_backward (E : store.Engine) (table : List store.Row) (limit : Int)
    (col val : String) (hlimit : 0 < limit) (hread : E.readsColumn col = true) :
    store.runSelect E table
        { whereClauses := [⟨" AND ", "? <= ?",
            [bun.Arg.ident col, bun.Arg.value (some (Value.scalar (Scalar.str val)))]⟩],
          order := [col ++ " DESC"], limit := limit } =
      some (store.backwardPage E table limit col val) := by
  have hw := filterRows_eq_filter E
    [⟨" AND ", "? <= ?", [bun.Arg.ident col, bun.Arg.value (some (Value.scalar (Scalar.str val)))]⟩]
    (fun r => match r.get col with
      | some x => decide (E.compare col x (Scalar.str val) ≠ Ordering.gt)
      | none => false)
    table
    (by
      intro r _
      have h := evalClause_cursor E false col val r
      simp only [Bool.false_eq_true, if_false] at h
      simp only [store.evalWhere, h, store.evalWhereFrom, store.insideCursor,
        Bool.false_eq_true, if_false])
  have ho := parseOrders_cursor E false col hread
  simp only [Bool.false_eq_true, if_false, Bool.not_false] at ho
  simp only [store.runSelect, ho, hw, sortRows_desc, bun.SelectQuery.limitClause, hlimit,
    if_true, store.backwardPage]

/-- The head of a sorted, cut, non-empty selection is below every selected row. -/
theorem head_of_sorted_take (rel : store.Row → store.Row → Prop) [DecidableRel rel]
    (hrefl : ∀ a, rel a a) (hsorted : ∀ l : List store.Row, (l.insertionSort rel).Sorted rel)
    (rows : List store.Row) (n : Nat) (hn : 0 < n) (r0 : store.Row) (hr0 : r0 ∈ rows) :
    ∃ r, ((rows.insertionSort rel).take n).head? = some r ∧ r ∈ rows ∧ rel r r0 := by
  have hperm : (rows.insertionSort rel).Perm rows := List.perm_insertionSort rel rows
  have hmem : r0 ∈ rows.insertionSort rel := hperm.mem_iff.mpr hr0
  have hs := hsorted rows
  cases hS : rows.insertionSort rel with
  | nil => rw [hS] at hmem; cases hmem
  | cons h t =>
    rw [hS] at hmem hs
    refine ⟨h, ?_, ?_, ?_⟩
    · obtain ⟨m, rfl⟩ : ∃ m, n = m + 1 := ⟨n - 1, by omega⟩
      rfl
    · exact hperm.mem_iff.mp (by rw [hS]; exact List.mem_cons_self h t)
    · rcases List.mem_cons.mp hmem with rfl | ht
      · exact hrefl _
      · exact List.rel_of_sorted_cons hs r0 ht

theorem ordering_eq_of_ne (o : Ordering) (h1 : o ≠ Ordering.lt) (h2 : o ≠ Ordering.gt) :
    o = Ordering.eq := by
  cases o
  · exact absurd rfl h1
  · rfl
  · exact absurd rfl h2

theorem forwardPage_head (E : store.Engine) (table : List store.Row) (limit : Int)
    (col val : String) (hlimit : 0 < limit) (hsort : E.SortsColumn col)
    (hcmp : E.ComparesAlong col) (r0 : store.Row) (hr0 : r0 ∈ table)
    (hcarry : store.carriesCursor E col val r0 = true) :
    ∃ r, (store.forwardPage E table limit col val).head? = some r ∧
      store.carriesCursor E col val r = true := by
  obtain ⟨x0, hx0, hc0⟩ : ∃ x0, r0.get col = some x0 ∧
      E.compare col x0 (Scalar.str val) = Ordering.eq := by
    unfold store.carriesCursor at hcarry
    cases hx : r0.get col with
    | none => simp [hx] at hcarry
    | some x0 => exact ⟨x0, rfl, by simpa [hx] using hcarry⟩
  have hr0F : r0 ∈ table.filter (fun r =>
      match r.get col with
      | some x => decide (E.compare col x (Scalar.str val) ≠ Ordering.lt)
      | none => false) := by
    simp [List.mem_filter, hr0, hx0, hc0]
  obtain ⟨r, hhead, hmem, hrel⟩ := head_of_sorted_take
    (fun a b => E.cellLe col (a.get col) (b.get col) = true)
    (fun a => (or_self_iff.mp (hsort.total (a.get col) (a.get col))))
    (fun l => sorted_by_cell E col hsort l)
    _ limit.toNat (by omega) r0 hr0F
  refine ⟨r, hhead, ?_⟩
  have hge := (List.mem_filter.mp hmem).2
  rw [hx0] at hrel
  unfold store.carriesCursor
  cases hx : r.get col with
  | none => simp [hx] at hge
  | some x =>
    simp only [hx] at hge hrel
    have h1 : E.compare col x (Scalar.str val) ≠ Ordering.lt := by simpa using hge
    have h2 : E.compare col x (Scalar.str val) ≠ Ordering.gt :=
      hcmp.lower x x0 (Scalar.str val) hrel (by rw [hc0]; decide)
    simp [ordering_eq_of_ne _ h1 h2]

theorem backwardPage_head (E : store.Engine) (table : List store.Row) (limit : Int)
    (col val : String) (hlimit : 0 < limit) (hsort : E.SortsColumn col)
    (hcmp : E.ComparesAlong col) (r0 : store.Row) (hr0 : r0 ∈ table)
    (hcarry : store.carriesCursor E col val r0 = true) :
    ∃ r, (store.backwardPage E table limit col val).head? = some r ∧
      store.carriesCursor E col val r = true := by
  obtain ⟨x0, hx0, hc0⟩ : ∃ x0, r0.get col = some x0 ∧
      E.compare col x0 (Scalar.str val) = Ordering.eq := by
    unfold store.carriesCursor at hcarry
    cases hx : r0.get col with
    | none => simp [hx] at hcarry
    | some x0 => exact ⟨x0, rfl, by simpa [hx] using hcarry⟩
  have hr0F : r0 ∈ table.filter (fun r =>
      match r.get col with
      | some x => decide (E.compare col x (Scalar.str val) ≠ Ordering.gt)
      | none => false) := by
    simp [List.mem_filter, hr0, hx0, hc0]
  obtain ⟨r, hhead, hmem, hrel⟩ := head_of_sorted_take
    (fun a b => E.cellLe col (b.get col) (a.get col) = true)
    (fun a => (or_self_iff.mp (hsort.total (a.get col) (a.get col))))
    (fun l => sorted_by_cell_desc E col hsort l)
    _ limit.toNat (by omega) r0 hr0F
  refine ⟨r, hhead, ?_⟩
  have hle := (List.mem_filter.mp hmem).2
  rw [hx0] at hrel
  unfold store.carriesCursor
  cases hx : r.get col with
  | none => simp [hx] at hle
  | some x =>
    simp only [hx] at hle hrel
    have h1 : E.compare col x (Scalar.str val) ≠ Ordering.gt := by simpa using hle
    have h2 : E.compare col x (Scalar.str val) ≠ Ordering.lt :=
      hcmp.upper x0 x (Scalar.str val) hrel (by rw [hc0]; decide)
    simp [ordering_eq_of_ne _ h2 h1]

/-- C10 as the code has it: with no caller criteria, a limit above 0 and below 2^31,
a non-empty cursor column that the store reads as a column in ORDER BY, and a
non-empty cursor value, the statement `FindManyWhere` scans returns, paging
forward, the first `limit` rows in ascending order of the cursor column among
the rows whose cursor column is at least the cursor value, and paging backward
the first `limit` rows in descending order among the rows whose cursor column
is at most the cursor value.  Order and comparison are those of the store.
When the store sorts the column by a total preorder both pages are sorted; when
its comparisons also go along that order the boundary is inclusive: if some
row carries the cursor value, a row carrying it is the first of either page. -/
theorem C10_cursor_pages (E : store.Engine) (table : List store.Row) (limit : Int)
    (col val : String) (hlimit : 0 < limit) (hfits : limit < 2147483648)
    (hcol : col ≠ "") (hval : val ≠ "") (hread : E.readsColumn col = true) :
    (∃ q, obun.FindManyWhere (some (WithCursor limit true col val)) [] = obun.Outcome.scan q ∧
      store.runSelect E table q = some (store.forwardPage E table limit col val)) ∧
    (∃ q, obun.FindManyWhere (some (WithCursor limit false col val)) [] = obun.Outcome.scan q ∧
      store.runSelect E table q = some (store.backwardPage E table limit col val)) ∧
    (E.SortsColumn col →
      (store.forwardPage E table limit col val).Pairwise
        (fun a b => E.cellLe col (a.get col) (b.get col) = true) ∧
      (store.backwardPage E table limit col val).Pairwise
        (fun a b => E.cellLe col (b.get col) (a.get col) = true)) ∧
    (E.SortsColumn col → E.ComparesAlong col →
      (∃ r0 ∈ table, store.carriesCursor E col val r0 = true) →
      (∃ r, (store.forwardPage E table limit col val).head? = some r ∧
        store.carriesCursor E col val r = true) ∧
      (∃ r, (store.backwardPage E table limit col val).head? = some r ∧
        store.carriesCursor E col val r = true)) := by
  have hmax : int32 (max limit 0) = limit := by
    rw [int32_of_fits _ (by omega) (by omega)]
    omega
  refine ⟨⟨_, FindManyWhere_withCursor [] limit true col val hcol, ?_⟩,
    ⟨_, FindManyWhere_withCursor [] limit false col val hcol, ?_⟩, ?_, ?_⟩
  · simpa [obun.applyCriteria, bun.NewSelect, hval, hmax] using
      runSelect_forward E table limit col val hlimit hread
  · simpa [obun.applyCriteria, bun.NewSelect, hval, hmax] using
      runSelect_backward E table limit col val hlimit hread
  · intro hsort
    exact ⟨(sorted_by_cell E col hsort _).sublist (List.take_sublist _ _),
      (sorted_by_cell_desc E col hsort _).sublist (List.take_sublist _ _)⟩
  · rintro hsort hcmp ⟨r0, hr0, hcarry⟩
    exact ⟨forwardPage_head E table limit col val hlimit hsort hcmp r0 hr0 hcarry,
      backwardPage_head E table limit col val hlimit hsort hcmp r0 hr0 hcarry⟩

/-- C10 on four rows with a numeric cursor column valued 1 to 4, with limit 2 and
cursor value "2", read by the sample engine with integer affinity on the column:
rows 2 and 3 forward, rows 2 and 1 backward, and row 2, which carries the cursor
value, first in both. -/
theorem C10_witness :
    (∃ q, obun.FindManyWhere (some (WithCursor 2 true "id" "2")) [] = obun.Outcome.scan q ∧
      store.runSelect (store.sampleEngine ["id"]) store.numbered q =
        some [[("id", Scalar.int 2), ("title", Scalar.str "Title 2")],
              [("id", Scalar.int 3), ("title", Scalar.str "Title 3")]]) ∧
    (∃ q, obun.FindManyWhere (some (WithCursor 2 false "id" "2")) [] = obun.Outcome.scan q ∧
      store.runSelect (store.sampleEngine ["id"]) store.numbered q =
        some [[("id", Scalar.int 2), ("title", Scalar.str "Title 2")],
              [("id", Scalar.int 1), ("title", Scalar.str "Title 1")]]) ∧
    (∃ r, (store.forwardPage (store.sampleEngine ["id"]) store.numbered 2 "id" "2").head? =
        some r ∧ store.carriesCursor (store.sampleEngine ["id"]) "id" "2" r = true) :=
  have h := C10_cursor_pages (store.sampleEngine ["id"]) store.numbered 2 "id" "2"
    (by decide) (by decide) (by decide) (by decide) (by decide)
  ⟨h.1.imp fun _ hq => ⟨hq.1, hq.2.trans (by decide)⟩,
   h.2.1.imp fun _ hq => ⟨hq.1, hq.2.trans (by decide)⟩,
   (h.2.2.2 (sampleEngine_sorts ["id"] "id") (sampleEngine_compares ["id"] "id")
     ⟨[("id", Scalar.int 2), ("title", Scalar.str "Title 2")], by decide, by decide⟩).1⟩

/-- C10 as stated fails on the four numbered rows paged forward from "2".  At the
limit 4294967297, which is 2^32 + 1, the statement carries the limit 1 and
returns row 2 alone, where the first 4294967297 rows at or after the cursor are
rows 2, 3 and 4.  At the non-empty cursor column "id id" the order expression
`id id ASC` is no column and direction, the store rejects the statement, and
no page is returned. -/
theorem C10_counterexample :
    obun.FindManyWhere (some (WithCursor 4294967297 true "id" "2")) [] =
      obun.Outcome.scan
        { whereClauses := [⟨" AND ", "? >= ?",
            [bun.Arg.ident "id", bun.Arg.value (some (Value.scalar (Scalar.str "2")))]⟩],
          order := ["id ASC"], limit := 1 } ∧
    store.runSelect (store.sampleEngine ["id"]) store.numbered
        { whereClauses := [⟨" AND ", "? >= ?",
            [bun.Arg.ident "id", bun.Arg.value (some (Value.scalar (Scalar.str "2")))]⟩],
          order := ["id ASC"], limit := 1 } =
      some [[("id", Scalar.int 2), ("title", Scalar.str "Title 2")]] ∧
    store.forwardPage (store.sampleEngine ["id"]) store.numbered 4294967297 "id" "2" =
      [[("id", Scalar.int 2), ("title", Scalar.str "Title 2")],
       [("id", Scalar.int 3), ("title", Scalar.str "Title 3")],
       [("id", Scalar.int 4), ("title", Scalar.str "Title 4")]] ∧
    obun.FindManyWhere (some (WithCursor 2 true "id id" "2")) [] =
      obun.Outcome.scan
        { whereClauses := [⟨" AND ", "? >= ?",
            [bun.Arg.ident "id id", bun.Arg.value (some (Value.scalar (Scalar.str "2")))]⟩],
          order := ["id id ASC"], limit := 2 } ∧
    store.runSelect (store.sampleEngine ["id"]) store.numbered
        { whereClauses := [⟨" AND ", "? >= ?",
            [bun.Arg.ident "id id", bun.Arg.value (some (Value.scalar (Scalar.str "2")))]⟩],
          order := ["id id ASC"], limit := 2 } = none :=
  ⟨by rfl, by decide, by decide, by rfl, by decide⟩

/-! ### Pagination options and the unpaginated query -/

/-- C12: `WithCursor` with an empty cursor column returns an error and leaves the
params it was given as they were, and `FindManyWhere` given that option returns
the error without reaching `Scan`; the option fails for no other reason, and with
a non-empty column it yields the params `max limit 0`, the direction, the column
and the cursor value as given, whatever the cursor value is. -/
theorem C12_option_fails_iff_column_empty (limit : Int) (next : Bool) (col val : String)
    (o : PaginationParams) (sc : List (Option obun.SelectCriteria)) :
    (∃ err, WithCursor limit next "" val o = (some err, o) ∧
      obun.FindManyWhere (some (WithCursor limit next "" val)) sc =
        obun.Outcome.optionFailed err) ∧
    ((WithCursor limit next col val o).1 ≠ none ↔ col = "") ∧
    (col ≠ "" →
      WithCursor limit next col val o = (none, ⟨max limit 0, next, col, val⟩) ∧
      0 ≤ (WithCursor limit next col val o).2.Limit ∧
      (WithCursor limit next col val o).2.CursorColumn ≠ "") := by
  have hmax : (if limit < 0 then 0 else limit) = max limit 0 := by
    split <;> omega
  refine ⟨⟨_, rfl, rfl⟩, ?_, ?_⟩
  · by_cases hcol : col = "" <;> simp [WithCursor, hcol]
  · intro hcol
    simp [WithCursor, hcol, hmax]

/-- C12 at the column "id" with a negative limit and a cursor value of white space. -/
theorem C12_witness :
    WithCursor (-3) true "id" "  " ⟨7, false, "x", "y"⟩ = (none, ⟨0, true, "id", "  "⟩) :=
  ((C12_option_fails_iff_column_empty (-3) true "id" "  " ⟨7, false, "x", "y"⟩ []).2.2
    (by decide)).1

theorem Limit_of_fits (q : bun.SelectQuery) (n : Int) (hlo : -2147483648 ≤ n)
    (hhi : n < 2147483648) : filter.Limit q n = { q with limit := n } := by
  simp [filter.Limit, bun.SelectQuery.Limit, int32_of_fits n hlo hhi]

theorem runSelect_of_sameSQL (E : store.Engine) (table : List store.Row)
    (a b : bun.SelectQuery) (h : a.sameSQL b = true) :
    store.runSelect E table a = store.runSelect E table b := by
  simp only [bun.SelectQuery.sameSQL, Bool.and_eq_true, beq_iff_eq] at h
  obtain ⟨⟨hw, ho⟩, hl⟩ := h
  simp only [store.runSelect, hw, ho, hl]

/-- C14 as the code has it: for a limit that fits in 32 bits, `filter.Limit` leaves
the statement with the LIMIT clause of the row limit `max n 0`, the clause `LIMIT n`
for a positive `n` and no clause otherwise, and changes neither the where
clauses nor the order.  The statement is written as the same SQL as after
`Limit(stmt, max n 0)`; for a negative `n` that is the SQL of `Limit(stmt, 0)`, and
the two statements return the same rows from every table. -/
theorem C14_limit_within_32_bits (E : store.Engine) (table : List store.Row)
    (q : bun.SelectQuery) (n : Int) (hlo : -2147483648 ≤ n) (hhi : n < 2147483648) :
    (filter.Limit q n).limitClause = (if 0 < max n 0 then some (max n 0) else none) ∧
    (filter.Limit q n).whereClauses = q.whereClauses ∧
    (filter.Limit q n).order = q.order ∧
    (filter.Limit q n).sameSQL (filter.Limit q (max n 0)) = true ∧
    (n ≤ 0 →
      (filter.Limit q n).sameSQL (filter.Limit q 0) = true ∧
      store.runSelect E table (filter.Limit q n) = store.runSelect E table (filter.Limit q 0)) := by
  have hclause : ∀ m : Int, -2147483648 ≤ m → m < 2147483648 →
      (filter.Limit q m).limitClause = (if 0 < max m 0 then some (max m 0) else none) := by
    intro m h1 h2
    rw [Limit_of_fits q m h1 h2]
    by_cases hm : 0 < m
    · have : max m 0 = m := by omega
      simp [bun.SelectQuery.limitClause, hm, this]
    · have : max m 0 = 0 := by omega
      simp [bun.SelectQuery.limitClause, hm, this]
  have hsame : ∀ m : Int, -2147483648 ≤ m → m < 2147483648 → max n 0 = max m 0 →
      (filter.Limit q n).sameSQL (filter.Limit q m) = true := by
    intro m h1 h2 hm
    simp only [bun.SelectQuery.sameSQL, Bool.and_eq_true, beq_iff_eq]
    refine ⟨⟨rfl, rfl⟩, ?_⟩
    rw [hclause n hlo hhi, hclause m h1 h2, hm]
  refine ⟨hclause n hlo hhi, rfl, rfl, hsame _ (by omega) (by omega) (by omega), ?_⟩
  intro hn
  have h0 := hsame 0 (by omega) (by omega) (by omega)
  exact ⟨h0, runSelect_of_sameSQL E table _ _ h0⟩

/-- C14 at the limit -5 on a statement ordered by id, read on the seeded books: no
LIMIT clause, the same SQL as after `Limit(stmt, 0)`, and the same rows. -/
theorem C14_witness :
    (filter.Limit ⟨[], ["id ASC"], 0⟩ (-5)).limitClause = none ∧
    (filter.Limit ⟨[], ["id ASC"], 0⟩ (-5)).sameSQL (filter.Limit ⟨[], ["id ASC"], 0⟩ 0) = true ∧
    store.runSelect (store.sampleEngine []) store.books (filter.Limit ⟨[], ["id ASC"], 0⟩ (-5)) =
      store.runSelect (store.sampleEngine []) store.books (filter.Limit ⟨[], ["id ASC"], 0⟩ 0) :=
  have h := C14_limit_within_32_bits (store.sampleEngine []) store.books
    ⟨[], ["id ASC"], 0⟩ (-5) (by decide) (by decide)
  ⟨h.1, (h.2.2.2.2 (by decide)).1, (h.2.2.2.2 (by decide)).2⟩

/-- C14 as stated fails at the limit 4294967301, which is 2^32 + 5: bun keeps the
limit as an `int32`, so the statement is written with `LIMIT 5`, where
`max 4294967301 0` is 4294967301. -/
theorem C14_counterexample :
    (filter.Limit bun.NewSelect 4294967301).limit = 5 ∧
    (filter.Limit bun.NewSelect 4294967301).limitClause = some 5 ∧
    max (4294967301 : Int) 0 ≠ 5 := by
  decide

theorem sortRows_nil_keys (E : store.Engine) (rows : List store.Row) :
    store.sortRows E [] rows = rows := by
  unfold store.sortRows
  induction rows with
  | nil => rfl
  | cons a t ih =>
    rw [List.insertionSort, ih]
    cases t <;> simp [List.orderedInsert, store.rowsLe]

theorem criterion_eq (c : filter.Call) (q : bun.SelectQuery) :
    c.criterion q = { q with whereClauses := q.whereClauses ++ c.clause.toList } := by
  unfold filter.Call.criterion
  rw [Call_run_eq]
  rfl

theorem applyCriteria_calls (calls : List filter.Call) (q : bun.SelectQuery) :
    obun.applyCriteria q (calls.map fun c => some c.criterion) =
      { q with whereClauses := q.whereClauses ++ calls.filterMap filter.Call.clause } := by
  induction calls generalizing q with
  | nil => simp [obun.applyCriteria]
  | cons c rest ih =>
    rw [List.map_cons, obun.applyCriteria, ih, criterion_eq]
    cases hc : c.clause <;> simp [List.filterMap_cons, hc]

theorem applyCriteria_eq_foldl (sc : List (Option obun.SelectCriteria)) (q : bun.SelectQuery) :
    obun.applyCriteria q sc = (sc.filterMap id).foldl (fun q f => f q) q := by
  induction sc generalizing q with
  | nil => rfl
  | cons c rest ih =>
    cases c with
    | none => simpa [obun.applyCriteria] using ih q
    | some f => simpa [obun.applyCriteria] using ih (f q)

/-- C15: with no pagination option `FindManyWhere` scans the statement obtained by
running the non-nil criteria in list order on a new statement, and nothing
else.  When the criteria are composer calls the statement has their clauses, no
order expression and no limit, and returns every row that satisfies the
clauses, in table order; with no criteria it returns the whole table.  The
rows are read by any engine. -/
theorem C15_unpaginated_query (E : store.Engine) (sc : List (Option obun.SelectCriteria))
    (calls : List filter.Call) (table : List store.Row) :
    obun.FindManyWhere none sc =
      obun.Outcome.scan ((sc.filterMap id).foldl (fun q f => f q) bun.NewSelect) ∧
    obun.FindManyWhere none (calls.map fun c => some c.criterion) =
      obun.Outcome.scan ⟨calls.filterMap filter.Call.clause, [], 0⟩ ∧
    store.runSelect E table ⟨calls.filterMap filter.Call.clause, [], 0⟩ =
      store.filterRows E (calls.filterMap filter.Call.clause) table ∧
    obun.FindManyWhere none [] = obun.Outcome.scan bun.NewSelect ∧
    store.runSelect E table bun.NewSelect = some table := by
  have hrun : ∀ ws : List bun.QueryWithSep,
      store.runSelect E table ⟨ws, [], 0⟩ = store.filterRows E ws table := by
    intro ws
    cases h : store.filterRows E ws table <;>
      simp [store.runSelect, store.parseOrders, h, sortRows_nil_keys,
        bun.SelectQuery.limitClause]
  have hall : store.filterRows E [] table = some table := by
    have := filterRows_eq_filter E [] (fun _ => true) table (fun _ _ => rfl)
    simpa using this
  refine ⟨?_, ?_, hrun _, rfl, ?_⟩
  · simp [obun.FindManyWhere, applyCriteria_eq_foldl]
  · simp [obun.FindManyWhere, applyCriteria_calls, bun.NewSelect]
  · rw [bun.NewSelect, hrun, hall]

/-! ### The two forms of FindManyWhere -/

theorem xbun_loop_eq (sc : List (Option xbun.SelectCriteria)) (q : bun.SelectQuery) :
    sc.foldl (fun q c =>
      match c with
      | none => q
      | some f => f q) q = obun.applyCriteria q sc := by
  induction sc generalizing q with
  | nil => rfl
  | cons c rest ih =>
    cases c with
    | none => simpa [obun.applyCriteria] using ih q
    | some f => simpa [obun.applyCriteria] using ih (f q)

/-- C16: for every pagination option, nil, failing or valid, and every list of
select criteria, `xbun.FindManyWhere` and `obun.Repository.FindManyWhere` come to
the same outcome: the same error when the option fails, the same statement
handed to `Scan` otherwise. -/
theorem C16_method_and_function_agree (opt : Option PaginationOption)
    (sc : List (Option obun.SelectCriteria)) :
    xbun.FindManyWhere opt sc = obun.FindManyWhere opt sc := by
  unfold xbun.FindManyWhere obun.FindManyWhere
  rw [xbun_loop_eq]

/-! ### Ordering (filter.go) -/

theorem unicode_ToLower_eq_iff (caseTable : Char → Char)
    (hTable : ∀ r : Char, 0x7F < r.toNat → caseTable r ∉ ['a', 'c', 'd', 'e', 's'])
    (c k : Char) (hk : k ∈ ['a', 'c', 'd', 'e', 's']) :
    unicode.ToLower caseTable c = k ↔ c.toLower = k := by
  by_cases h : c.toNat ≤ 0x7F
  · have : unicode.ToLower caseTable c = c.toLower := by
      simp [unicode.ToLower, Char.toLower, h]
    rw [this]
  · have h1 : caseTable c ≠ k := fun e => hTable c (by omega) (e ▸ hk)
    have h2 : c.toLower = c := by
      have : ¬ c.toNat ≤ 90 := by omega
      simp [Char.toLower, this]
    have h3 : c ≠ k := by
      rintro rfl
      simp only [List.mem_cons, List.mem_singleton, List.not_mem_nil, or_false] at hk
      rcases hk with rfl | rfl | rfl | rfl | rfl <;> exact h (by decide)
    simp [unicode.ToLower, h, h1, h2, h3]

theorem map_eq_iff_of_pointwise {f g : Char → Char} (ks : List Char)
    (h : ∀ c k, k ∈ ks → (f c = k ↔ g c = k)) (l : List Char) :
    l.map f = ks ↔ l.map g = ks := by
  induction l generalizing ks with
  | nil => simp
  | cons a t ih =>
    cases ks with
    | nil => simp
    | cons k ks =>
      simp only [List.map_cons, List.cons.injEq]
      rw [h a k (List.mem_cons_self k ks),
        ih ks (fun c k2 hk2 => h c k2 (List.mem_cons_of_mem k hk2))]

theorem ToLower_eq_keyword (caseTable : Char → Char)
    (hTable : ∀ r : Char, 0x7F < r.toNat → caseTable r ∉ ['a', 'c', 'd', 'e', 's'])
    (s kw : String) (hkw : ∀ k ∈ kw.data, k ∈ ['a', 'c', 'd', 'e', 's']) :
    (strings.ToLower caseTable s == kw) = strings.EqualIgnoringCase s kw := by
  have hlow : kw.data.map Char.toLower = kw.data := by
    have : ∀ l : List Char, (∀ k ∈ l, k ∈ ['a', 'c', 'd', 'e', 's']) →
        l.map Char.toLower = l := by
      intro l hl
      induction l with
      | nil => rfl
      | cons a t ih =>
        have ha := hl a (List.mem_cons_self a t)
        have hat : a.toLower = a := by
          simp only [List.mem_cons, List.mem_singleton, List.not_mem_nil, or_false] at ha
          rcases ha with rfl | rfl | rfl | rfl | rfl <;> decide
        rw [List.map_cons, hat, ih (fun k hk => hl k (List.mem_cons_of_mem a hk))]
    exact this _ hkw
  have hiff : strings.ToLower caseTable s = kw ↔ s.data.map Char.toLower = kw.data := by
    rw [← map_eq_iff_of_pointwise kw.data
      (fun c k hk => unicode_ToLower_eq_iff caseTable hTable c k (hkw k hk)) s.data]
    unfold strings.ToLower
    constructor
    · intro e
      rw [← e]
    · intro e
      exact String.ext e
  unfold strings.EqualIgnoringCase
  rw [hlow, Bool.eq_iff_iff, beq_iff_eq, beq_iff_eq]
  exact hiff

theorem OrderBy_trimmed (caseTable : Char → Char)
    (hTable : ∀ r : Char, 0x7F < r.toNat → caseTable r ∉ ['a', 'c', 'd', 'e', 's'])
    (q : bun.SelectQuery) (column direction : String) :
    filter.OrderBy caseTable q column direction =
      if direction.data.all unicode.IsSpace then Except.ok q
      else if strings.EqualIgnoringCase (strings.TrimSpace direction) "asc" then
        Except.ok { q with order := q.order ++ [column ++ " asc"] }
      else if strings.EqualIgnoringCase (strings.TrimSpace direction) "desc" then
        Except.ok { q with order := q.order ++ [column ++ " desc"] }
      else Except.error "invalid order direction: should be \x27asc\x27 or \x27desc\x27" := by
  have he : (strings.TrimSpace direction == "") = direction.data.all unicode.IsSpace := by
    rw [Bool.eq_iff_iff]
    exact empty_iff direction
  have hasc := ToLower_eq_keyword caseTable hTable (strings.TrimSpace direction) "asc"
    (by decide)
  have hdesc := ToLower_eq_keyword caseTable hTable (strings.TrimSpace direction) "desc"
    (by decide)
  unfold filter.OrderBy
  simp only [he, hasc, hdesc, bun.SelectQuery.OrderExpr]

theorem sampleCaseTable_spec (r : Char) (h : 0x7F < r.toNat) :
    unicode.sampleCaseTable r ∉ ['a', 'c', 'd', 'e', 's'] := by
  unfold unicode.sampleCaseTable
  split
  · decide
  · split
    · decide
    · intro hr
      simp only [List.mem_cons, List.mem_singleton, List.not_mem_nil, or_false] at hr
      rcases hr with rfl | rfl | rfl | rfl | rfl <;> exact absurd h (by decide)

/-- C13 as the code has it: the direction is matched after its surrounding white
space is trimmed, ignoring letter case.  A direction of white space only leaves
the statement unchanged; one that trims to `asc` or `desc` in any letter case
appends exactly the order expression `column asc`, respectively `column desc`;
every other direction panics.  Hence `OrderBy(col, "ASC")` and
`OrderBy(col, "asc")` give the same statement.  The case table is any that sends
no non-ASCII rune to one of the letters a, c, d, e, s, as Unicode does. -/
theorem C13_orderBy_trims_then_matches (caseTable : Char → Char)
    (hTable : ∀ r : Char, 0x7F < r.toNat → caseTable r ∉ ['a', 'c', 'd', 'e', 's'])
    (q : bun.SelectQuery) (column direction : String) :
    (direction.data.all unicode.IsSpace = true →
      filter.OrderBy caseTable q column direction = Except.ok q) ∧
    (strings.EqualIgnoringCase (strings.TrimSpace direction) "asc" = true →
      filter.OrderBy caseTable q column direction =
        Except.ok { q with order := q.order ++ [column ++ " asc"] }) ∧
    (strings.EqualIgnoringCase (strings.TrimSpace direction) "desc" = true →
      filter.OrderBy caseTable q column direction =
        Except.ok { q with order := q.order ++ [column ++ " desc"] }) ∧
    (direction.data.all unicode.IsSpace = false →
      strings.EqualIgnoringCase (strings.TrimSpace direction) "asc" = false →
      strings.EqualIgnoringCase (strings.TrimSpace direction) "desc" = false →
      filter.OrderBy caseTable q column direction =
        Except.error "invalid order direction: should be \x27asc\x27 or \x27desc\x27") ∧
    filter.OrderBy caseTable q column "ASC" = filter.OrderBy caseTable q column "asc" := by
  have hblank : ∀ kw : String, kw ≠ "" → direction.data.all unicode.IsSpace = true →
      strings.EqualIgnoringCase (strings.TrimSpace direction) kw = false := by
    intro kw hkw hsp
    have ht : strings.TrimSpace direction = "" := by
      have := (empty_iff direction).mpr hsp
      simpa [filter.empty] using this
    rw [ht]
    unfold strings.EqualIgnoringCase
    cases hd : kw.data with
    | nil => exact absurd (String.ext hd) hkw
    | cons a t => simp
  refine ⟨?_, ?_, ?_, ?_, ?_⟩
  · intro h
    rw [OrderBy_trimmed caseTable hTable, h, if_pos rfl]
  · intro h
    cases hsp : direction.data.all unicode.IsSpace with
    | true => rw [hblank "asc" (by decide) hsp] at h; cases h
    | false => simp [OrderBy_trimmed caseTable hTable, hsp, h]
  · intro h
    cases hsp : direction.data.all unicode.IsSpace with
    | true => rw [hblank "desc" (by decide) hsp] at h; cases h
    | false =>
      cases hasc : strings.EqualIgnoringCase (strings.TrimSpace direction) "asc" with
      | true =>
        have e1 : (strings.TrimSpace direction).data.map Char.toLower = "asc".data := by
          simpa [strings.EqualIgnoringCase] using hasc
        have e2 : (strings.TrimSpace direction).data.map Char.toLower = "desc".data := by
          simpa [strings.EqualIgnoringCase] using h
        rw [e1] at e2
        exact absurd e2 (by decide)
      | false => simp [OrderBy_trimmed caseTable hTable, hsp, hasc, h]
  · intro hsp hasc hdesc
    simp [OrderBy_trimmed caseTable hTable, hsp, hasc, hdesc]
  · rw [OrderBy_trimmed caseTable hTable, OrderBy_trimmed caseTable hTable]
    rfl

/-- C13 with the sample case table: a padded, mixed-case direction is accepted and
`up` panics. -/
theorem C13_witness :
    filter.OrderBy unicode.sampleCaseTable bun.NewSelect "id" " DeSc " =
      Except.ok ⟨[], ["id desc"], 0⟩ ∧
    filter.OrderBy unicode.sampleCaseTable bun.NewSelect "id" "up" =
      Except.error "invalid order direction: should be \x27asc\x27 or \x27desc\x27" :=
  have h := C13_orderBy_trims_then_matches unicode.sampleCaseTable sampleCaseTable_spec
    bun.NewSelect "id"
  ⟨(h " DeSc ").2.2.1 (by decide), (h "up").2.2.2.1 (by decide) (by decide) (by decide)⟩

/-- C13 as stated fails at the direction " asc": it is not empty, not white space
only, and equals neither `asc` nor `desc` ignoring letter case, yet `OrderBy` does
not panic and appends the ascending order.  The direction is ASCII, so no case
table is consulted. -/
theorem C13_counterexample :
    (" asc" : String) ≠ "" ∧
    (" asc" : String).data.all unicode.IsSpace = false ∧
    strings.EqualIgnoringCase " asc" "asc" = false ∧
    strings.EqualIgnoringCase " asc" "desc" = false ∧
    filter.OrderBy unicode.sampleCaseTable bun.NewSelect "id" " asc" =
      Except.ok ⟨[], ["id asc"], 0⟩ :=
  ⟨by decide, by decide, by decide, by decide, by rfl⟩

/-! ### Pages after caller predicates -/

theorem evalWhereFrom_and_last (E : store.Engine) (r : store.Row) (k : bun.QueryWithSep)
    (hk : k.sep = " AND ") (ws : List bun.QueryWithSep) (hws : ∀ c ∈ ws, c.sep = " AND ")
    (cur : Bool) (h : store.evalWhereFrom E r cur (ws ++ [k]) = some true) :
    store.evalClause E r k = some true := by
  induction ws generalizing cur with
  | nil =>
    simp only [List.nil_append, store.evalWhereFrom, hk] at h
    cases hb : store.evalClause E r k with
    | none => simp [hb] at h
    | some b =>
      simp [hb, store.evalWhereFrom] at h
      rw [h.2]
  | cons c rest ih =>
    have hc := hws c (List.mem_cons_self c rest)
    simp only [List.cons_append, store.evalWhereFrom, hc] at h
    cases hb : store.evalClause E r c with
    | none => simp [hb] at h
    | some b =>
      simp [hb] at h
      exact ih (fun c2 h2 => hws c2 (List.mem_cons_of_mem c h2)) _ h

theorem evalWhere_and_last (E : store.Engine) (r : store.Row) (k : bun.QueryWithSep)
    (hk : k.sep = " AND ") (ws : List bun.QueryWithSep)
    (hws : ∀ c ∈ ws.tail, c.sep = " AND ")
    (h : store.evalWhere E r (ws ++ [k]) = some true) :
    store.evalClause E r k = some true := by
  cases ws with
  | nil =>
    simp only [List.nil_append, store.evalWhere] at h
    cases hb : store.evalClause E r k with
    | none => simp [hb] at h
    | some b =>
      simp [hb, store.evalWhereFrom] at h
      rw [h]
  | cons c rest =>
    simp only [List.cons_append, store.evalWhere] at h
    cases hb : store.evalClause E r c with
    | none => simp [hb] at h
    | some b =>
      simp only [hb] at h
      exact evalWhereFrom_and_last E r k hk rest hws b h

theorem filterRows_sound (E : store.Engine) (ws : List bun.QueryWithSep)
    (table kept : List store.Row) (h : store.filterRows E ws table = some kept) :
    kept.Sublist table ∧ ∀ r ∈ kept, store.evalWhere E r ws = some true := by
  induction table generalizing kept with
  | nil =>
    simp [store.filterRows] at h
    subst h
    simp
  | cons a t ih =>
    simp only [store.filterRows] at h
    cases hb : store.evalWhere E a ws with
    | none => simp [hb] at h
    | some b =>
      cases ht : store.filterRows E ws t with
      | none => simp [hb, ht] at h
      | some kept2 =>
        simp only [hb, ht, Option.some.injEq] at h
        subst h
        obtain ⟨hsub, hev⟩ := ih kept2 ht
        cases b with
        | false =>
          simp only [Bool.false_eq_true, if_false]
          exact ⟨hsub.cons a, hev⟩
        | true =>
          simp only [if_true]
          refine ⟨hsub.cons₂ a, ?_⟩
          intro r hr
          rcases List.mem_cons.mp hr with rfl | hr
          · exact hb
          · exact hev r hr

theorem Call_clause_sep (calls : List filter.Call) :
    ∀ c ∈ calls.filterMap filter.Call.clause, c.sep = " AND " ∨ c.sep = " OR " := by
  intro c hc
  obtain ⟨call, _, hcall⟩ := List.mem_filterMap.mp hc
  rcases call with (_ | p) | (_ | p) <;> simp [filter.Call.clause] at hcall
  · exact Or.inl (by rw [← hcall])
  · exact Or.inr (by rw [← hcall])

theorem evalWhereFrom_total (E : store.Engine) (r : store.Row) (ws : List bun.QueryWithSep)
    (hws : ∀ c ∈ ws, (store.evalClause E r c).isSome = true ∧
      (c.sep = " AND " ∨ c.sep = " OR ")) (cur : Bool) :
    ∃ b, store.evalWhereFrom E r cur ws = some b := by
  induction ws generalizing cur with
  | nil => exact ⟨cur, rfl⟩
  | cons c rest ih =>
    have hc := hws c (List.mem_cons_self c rest)
    have hrest := fun c2 h2 => hws c2 (List.mem_cons_of_mem c h2)
    obtain ⟨b, hb⟩ := Option.isSome_iff_exists.mp hc.1
    simp only [store.evalWhereFrom, hb]
    rcases hc.2 with hsep | hsep
    · have hne : ¬ c.sep = " OR " := by rw [hsep]; decide
      simp only [hne, if_false, hsep, if_true]
      exact ih hrest _
    · simp only [hsep, if_true]
      obtain ⟨v, hv⟩ := ih hrest b
      exact ⟨cur || v, by simp [hv]⟩

theorem evalWhere_total (E : store.Engine) (r : store.Row) (ws : List bun.QueryWithSep)
    (hws : ∀ c ∈ ws, (store.evalClause E r c).isSome = true ∧
      (c.sep = " AND " ∨ c.sep = " OR ")) :
    ∃ b, store.evalWhere E r ws = some b := by
  cases ws with
  | nil => exact ⟨true, rfl⟩
  | cons c rest =>
    have hc := hws c (List.mem_cons_self c rest)
    obtain ⟨b, hb⟩ := Option.isSome_iff_exists.mp hc.1
    simp only [store.evalWhere, hb]
    exact evalWhereFrom_total E r rest (fun c2 h2 => hws c2 (List.mem_cons_of_mem c h2)) b

theorem filterRows_total (E : store.Engine) (ws : List bun.QueryWithSep)
    (table : List store.Row)
    (hws : ∀ r ∈ table, ∀ c ∈ ws, (store.evalClause E r c).isSome = true ∧
      (c.sep = " AND " ∨ c.sep = " OR ")) :
    ∃ kept, store.filterRows E ws table = some kept := by
  refine ⟨_, filterRows_eq_filter E ws (fun r => (store.evalWhere E r ws).getD false) table ?_⟩
  intro r hr
  obtain ⟨b, hb⟩ := evalWhere_total E r ws (hws r hr)
  simp [hb]

theorem sortRows_cursor_sorted (E : store.Engine) (next : Bool) (col : String)
    (hsort : E.SortsColumn col) (rows : List store.Row) :
    (store.sortRows E [⟨col, !next⟩] rows).Pairwise
      fun a b => store.pageOrder E next col a b = true := by
  cases next
  · simpa [store.pageOrder, sortRows_desc] using sorted_by_cell_desc E col hsort rows
  · simpa [store.pageOrder, sortRows_asc] using sorted_by_cell E col hsort rows

theorem runSelect_some (E : store.Engine) (table : List store.Row) (q : bun.SelectQuery)
    (rows : List store.Row) (h : store.runSelect E table q = some rows) :
    ∃ keys kept, store.parseOrders E q.order = some keys ∧
      store.filterRows E q.whereClauses table = some kept ∧
      rows.Sublist (store.sortRows E keys kept) ∧
      (0 < q.limit → (rows.length : Int) ≤ q.limit) := by
  unfold store.runSelect at h
  cases hp : store.parseOrders E q.order with
  | none => simp [hp] at h
  | some keys =>
    cases hk : store.filterRows E q.whereClauses table with
    | none => simp [hp, hk] at h
    | some kept =>
      refine ⟨keys, kept, rfl, rfl, ?_, ?_⟩
      · cases hl : q.limitClause with
        | none =>
          simp only [hp, hk, hl, Option.some.injEq] at h
          rw [← h]
        | some m =>
          simp only [hp, hk, hl, Option.some.injEq] at h
          rw [← h]
          exact List.take_sublist _ _
      · intro hpos
        simp only [hp, hk, bun.SelectQuery.limitClause, hpos, if_true,
          Option.some.injEq] at h
        rw [← h]
        have := List.length_take_le q.limit.toNat (store.sortRows E keys kept)
        omega

theorem page_bounds (E : store.Engine) (table : List store.Row) (cs : List bun.QueryWithSep)
    (k : Int) (next : Bool) (col val : String) (rows : List store.Row)
    (h : store.runSelect E table
      ⟨cs ++ [⟨" AND ", if next then "? >= ?" else "? <= ?",
          [bun.Arg.ident col, bun.Arg.value (some (Value.scalar (Scalar.str val)))]⟩],
        [col ++ (if next then " ASC" else " DESC")], k⟩ = some rows) :
    (∀ r ∈ rows, r ∈ table) ∧
    (E.readsColumn col = true → E.SortsColumn col →
      rows.Pairwise (fun a b => store.pageOrder E next col a b = true)) ∧
    rows.length ≤ table.length ∧
    (0 < k → (rows.length : Int) ≤ k) ∧
    ((∀ c ∈ cs.tail, c.sep = " AND ") →
      ∀ r ∈ rows, store.insideCursor E next col val r = true) := by
  obtain ⟨keys, kept, hp, hk, hrows, hcut⟩ := runSelect_some E table _ rows h
  simp only at hp hk hcut
  obtain ⟨hsub, hev⟩ := filterRows_sound E _ table kept hk
  have hperm := List.perm_insertionSort (fun a b => store.rowsLe E keys a b = true) kept
  have hmemk : ∀ r ∈ rows, r ∈ kept := fun r hr => hperm.mem_iff.mp (hrows.subset hr)
  have hlen : rows.length ≤ kept.length := by
    have := hrows.length_le
    rw [store.sortRows, hperm.length_eq] at this
    exact this
  refine ⟨fun r hr => hsub.subset (hmemk r hr), ?_, le_trans hlen hsub.length_le, hcut, ?_⟩
  · intro hread hsort
    rw [parseOrders_cursor E next col hread, Option.some.injEq] at hp
    rw [← hp] at hrows
    exact (sortRows_cursor_sorted E next col hsort kept).sublist hrows
  · intro hand r hr
    have h1 := evalWhere_and_last E r _ rfl cs hand (hev r (hmemk r hr))
    rw [evalClause_cursor] at h1
    exact Option.some.inj h1

theorem page_exists (E : store.Engine) (table : List store.Row) (cs : List bun.QueryWithSep)
    (k : Int) (next : Bool) (col val : String) (hread : E.readsColumn col = true)
    (hacc : ∀ r ∈ table, ∀ c ∈ cs, (store.evalClause E r c).isSome = true ∧
      (c.sep = " AND " ∨ c.sep = " OR ")) :
    ∃ rows, store.runSelect E table
      ⟨cs ++ [⟨" AND ", if next then "? >= ?" else "? <= ?",
          [bun.Arg.ident col, bun.Arg.value (some (Value.scalar (Scalar.str val)))]⟩],
        [col ++ (if next then " ASC" else " DESC")], k⟩ = some rows := by
  obtain ⟨kept, hk⟩ := filterRows_total E
    (cs ++ [⟨" AND ", if next then "? >= ?" else "? <= ?",
      [bun.Arg.ident col, bun.Arg.value (some (Value.scalar (Scalar.str val)))]⟩])
    table
    (by
      intro r hr c hc
      rcases List.mem_append.mp hc with h | h
      · exact hacc r hr c h
      · rw [List.mem_singleton.mp h]
        exact ⟨by rw [evalClause_cursor]; rfl, Or.inl rfl⟩)
  simp only [store.runSelect, parseOrders_cursor E next col hread, hk]
  cases bun.SelectQuery.limitClause _ <;> exact ⟨_, rfl⟩

theorem FindManyWhere_calls (calls : List filter.Call) (limit : Int) (next : Bool)
    (col val : String) (hcol : col ≠ "") (hval : val ≠ "") :
    obun.FindManyWhere (some (WithCursor limit next col val))
        (calls.map fun c => some c.criterion) =
      obun.Outcome.scan
        ⟨calls.filterMap filter.Call.clause ++
          [⟨" AND ", if next then "? >= ?" else "? <= ?",
            [bun.Arg.ident col, bun.Arg.value (some (Value.scalar (Scalar.str val)))]⟩],
         [col ++ (if next then " ASC" else " DESC")], int32 (max limit 0)⟩ := by
  rw [FindManyWhere_withCursor _ limit next col val hcol, applyCriteria_calls]
  simp [bun.NewSelect, hval]

/-- C11 as the code has it, for any sequence of caller predicates, AND-joined or
OR-joined, any limit, a non-empty cursor column and a non-empty cursor value.
The rows the statement of the paginated `FindManyWhere` returns are rows of the
table.  They come in the order of the cursor column, ascending forward and
descending backward, when the store reads the column as a column in ORDER BY
and sorts it by a total preorder.  They are at most `limit` when `limit` is
positive and either fits in 32 bits or is no less than the size of the table.
Every one lies on the inclusive side of the cursor when no caller predicate
after the first applied one is OR-joined.  The statement does return rows when
the store reads the column and accepts every caller clause. -/
theorem C11_page_bounds (E : store.Engine) (table : List store.Row)
    (calls : List filter.Call) (limit : Int) (next : Bool) (col val : String)
    (hcol : col ≠ "") (hval : val ≠ "") :
    ∃ q, obun.FindManyWhere (some (WithCursor limit next col val))
        (calls.map fun c => some c.criterion) = obun.Outcome.scan q ∧
      (∀ rows, store.runSelect E table q = some rows →
        (∀ r ∈ rows, r ∈ table) ∧
        (E.readsColumn col = true → E.SortsColumn col →
          rows.Pairwise (fun a b => store.pageOrder E next col a b = true)) ∧
        (0 < limit → limit < 2147483648 ∨ (table.length : Int) ≤ limit →
          (rows.length : Int) ≤ limit) ∧
        ((∀ c ∈ (calls.filterMap filter.Call.clause).tail, c.sep = " AND ") →
          ∀ r ∈ rows, store.insideCursor E next col val r = true)) ∧
      (E.readsColumn col = true →
        (∀ r ∈ table, ∀ c ∈ calls.filterMap filter.Call.clause,
          (store.evalClause E r c).isSome = true) →
        ∃ rows, store.runSelect E table q = some rows) := by
  refine ⟨_, FindManyWhere_calls calls limit next col val hcol hval, ?_, ?_⟩
  · intro rows h
    obtain ⟨hmem, hord, hlen, hcut, hside⟩ :=
      page_bounds E table _ _ next col val rows h
    refine ⟨hmem, hord, ?_, hside⟩
    intro hpos hfit
    rcases hfit with hfit | hfit
    · have hk : int32 (max limit 0) = limit := by
        rw [int32_of_fits _ (by omega) (by omega)]
        omega
      rw [hk] at hcut
      exact hcut hpos
    · omega
  · intro hread hacc
    exact page_exists E table _ _ next col val hread
      (fun r hr c hc => ⟨hacc r hr c hc, Call_clause_sep calls c hc⟩)

/-- C11 on the four numbered rows read by the sample engine, forward from "2" with
limit 2, after an OR-joined first predicate `id > 1` and an AND-joined text match
on the title: the statement returns rows, at most two, all at or after the
cursor. -/
theorem C11_witness :
    ∃ q, obun.FindManyWhere (some (WithCursor 2 true "id" "2"))
        [some (filter.Call.criterion
          (filter.Call.orWhere (filter.GreaterThan "id" (filter.boxString "1")))),
         some (filter.Call.criterion
          (filter.Call.andWhere (filter.Contains "title" "title")))] =
        obun.Outcome.scan q ∧
      ∃ rows, store.runSelect (store.sampleEngine ["id"]) store.numbered q = some rows ∧
        (rows.length : Int) ≤ 2 ∧
        ∀ r ∈ rows, store.insideCursor (store.sampleEngine ["id"]) true "id" "2" r = true :=
  have h := C11_page_bounds (store.sampleEngine ["id"]) store.numbered
    [filter.Call.orWhere (filter.GreaterThan "id" (filter.boxString "1")),
     filter.Call.andWhere (filter.Contains "title" "title")]
    2 true "id" "2" (by decide) (by decide)
  h.imp fun _ hq =>
    ⟨hq.1, (hq.2.2 (by decide) (by decide)).imp fun rows hr =>
      ⟨hr, (hq.2.1 rows hr).2.2.1 (by decide) (Or.inl (by decide)),
        (hq.2.1 rows hr).2.2.2 (by decide)⟩⟩

/-- C11 as stated fails twice on the four seeded books, forward from "2", read by
the sample engine.  After `Where(title = Title 1)` and `OrWhere(title = Title 3)`
with limit 2 the statement reads `title = Title 1 OR title = Title 3 AND id >= 2`
and returns book 1, which lies before the cursor.  With limit 0 and no caller
predicate the statement has no LIMIT clause and returns three rows. -/
theorem C11_counterexample :
    (∃ q rows,
      obun.FindManyWhere (some (WithCursor 2 true "id" "2"))
        [some (filter.Call.criterion
          (filter.Call.andWhere (filter.Equal "title" (filter.boxString "Title 1")))),
         some (filter.Call.criterion
          (filter.Call.orWhere (filter.Equal "title" (filter.boxString "Title 3"))))] =
        obun.Outcome.scan q ∧
      store.runSelect (store.sampleEngine []) store.books q = some rows ∧
      rows = [[("id", Scalar.str "1"), ("title", Scalar.str "Title 1")],
              [("id", Scalar.str "3"), ("title", Scalar.str "Title 3")]] ∧
      ∃ r ∈ rows, store.insideCursor (store.sampleEngine []) true "id" "2" r = false) ∧
    (∃ q rows,
      obun.FindManyWhere (some (WithCursor 0 true "id" "2")) [] = obun.Outcome.scan q ∧
      store.runSelect (store.sampleEngine []) store.books q = some rows ∧
      ¬ ((rows.length : Int) ≤ 0)) :=
  ⟨⟨_, _, rfl, by decide, rfl, by decide⟩,
   ⟨⟨[⟨" AND ", "? >= ?",
        [bun.Arg.ident "id", bun.Arg.value (some (Value.scalar (Scalar.str "2")))]⟩],
      ["id ASC"], 0⟩,
    store.books.tail, by rfl, by decide, by decide⟩⟩

end DbStore
